import Mathlib

/-!
Verification of the CSP backtracking solvers in this repository
(`sudoku_csp.py`, `sudoku_forward_check.py`, `sudoku.py`, `map_coloring_csp.py`).

The Python code is embedded shallowly: the mutable 9×9 grid becomes a
`List (List Nat)` threaded through the recursion (so that in-place mutation
and its undo are visible in the final state), the domain dictionary becomes a
function `Variable → List Nat` updated pointwise, and the module-level
instrumentation counters become explicit state fields.  Recursion depth is
bounded by an explicit fuel argument; the top-level entry points supply fuel
`82` (resp. `variables.length + 1`), which dominates the recursion depth of
the Python code, since every nested call fills one empty cell (resp. assigns
one fresh variable).
-/

/-- A Sudoku variable is a `(row, column)` coordinate, as in all three
Sudoku source files. -/
abbrev Variable := Nat × Nat

/-- A Sudoku grid: list of rows, `0` denotes an empty cell. -/
abbrev Grid := List (List Nat)

/-- Read cell `(r, c)`; out-of-range reads default to `0` (the Python code
only ever indexes inside the 9×9 range). -/
def gridGet (g : Grid) (r c : Nat) : Nat := (g.getD r []).getD c 0

/-- Write cell `(r, c)` (in-place `grid[r][c] = v` in the source);
out-of-range writes are a no-op. -/
def gridSet (g : Grid) (r c v : Nat) : Grid := g.set r ((g.getD r []).set c v)

/-- The grid really is 9×9 (the shape every claim assumes). -/
def WellFormed (g : Grid) : Prop := g.length = 9 ∧ ∀ row ∈ g, row.length = 9

instance : DecidablePred WellFormed := fun g => by
  unfold WellFormed; infer_instance

/-- `get_variables` from the Sudoku files: all 81 cells in row-major order. -/
def get_variables : List Variable :=
  (List.range 9).flatMap fun row => (List.range 9).map fun column => (row, column)

/-- `get_domain` from `sudoku_csp.py` (identical in the other Sudoku files):
a filled cell has the singleton domain, an empty cell has `[1..9]`. -/
def get_domain (g : Grid) (var : Variable) : List Nat :=
  if gridGet g var.1 var.2 ≠ 0 then [gridGet g var.1 var.2]
  else List.range' 1 9

/-- `check_constraint` from the Sudoku files: value `value` at `var` clashes
with no other cell of the row, the column, or the 3×3 box (the cell itself is
skipped, mirroring the `continue` statements). -/
def check_constraint (g : Grid) (var : Variable) (value : Nat) : Bool :=
  ((List.range 9).all fun ci => ci == var.2 || gridGet g var.1 ci != value) &&
  ((List.range 9).all fun ri => ri == var.1 || gridGet g ri var.2 != value) &&
  ((List.range' (var.1 / 3 * 3) 3).all fun br =>
    (List.range' (var.2 / 3 * 3) 3).all fun bc =>
      (br == var.1 && bc == var.2) || gridGet g br bc != value)

/-- `select_unassigned_variable` from `sudoku_csp.py` and
`sudoku_forward_check.py`: the first empty cell in row-major order. -/
def select_unassigned_variable (g : Grid) : Option Variable :=
  get_variables.find? fun var => gridGet g var.1 var.2 == 0

/-- Solver state for the plain solver: the (mutated-in-place) grid plus the
module-level counters `assignments_count` and `backtracks_count`. -/
structure SState where
  grid : Grid
  assignments_count : Nat
  backtracks_count : Nat
deriving DecidableEq, Repr

/-- The `for value in get_domain(...)` loop body of `backtrack_solve` in
`sudoku_csp.py`.  `recur` is the recursive call one level deeper.  The final
state records the in-place grid mutations and counter increments. -/
def try_values (recur : SState → Option Grid × SState) (var : Variable) :
    List Nat → SState → Option Grid × SState
  | [], s => (none, s)
  | value :: rest, s =>
    if check_constraint s.grid var value then
      match recur ⟨gridSet s.grid var.1 var.2 value,
                   s.assignments_count + 1, s.backtracks_count⟩ with
      | (some sol, s2) => (some sol, s2)
      | (none, s2) =>
          try_values recur var rest
            ⟨gridSet s2.grid var.1 var.2 0,
             s2.assignments_count, s2.backtracks_count + 1⟩
    else try_values recur var rest s

/-- `backtrack_solve` from `sudoku_csp.py`, with explicit fuel bounding the
recursion depth (each level fills one empty cell, so depth ≤ 82 on a 9×9
grid). -/
def backtrack_solve_fuel : Nat → SState → Option Grid × SState
  | 0, s => (none, s)
  | fuel + 1, s =>
    match select_unassigned_variable s.grid with
    | none => (some s.grid, s)
    | some var => try_values (backtrack_solve_fuel fuel) var (get_domain s.grid var) s

/-- Top-level plain solve, counters reset to zero as done by the
`__main__` driver of `sudoku_csp.py` right before the call. -/
def backtrack_solve (g : Grid) : Option Grid :=
  (backtrack_solve_fuel 82 ⟨g, 0, 0⟩).1

/-- The domain store `Dict[Variable, List[int]]`, as a total function (the
Python dict always holds exactly the 81 cells, and is only ever read through
`domains[...]` / `domains.get(..., [])`). -/
abbrev Domains := Variable → List Nat

/-- Pointwise dictionary update `domains[var] = values`. -/
def updateD (d : Domains) (var : Variable) (values : List Nat) : Domains :=
  fun y => if y = var then values else d y

/-- `initial_domains` from `sudoku_forward_check.py`: a filled cell keeps its
singleton domain; an empty cell gets `[1..9]` minus the values used in its
row, column, and 3×3 box. -/
def initial_domains (g : Grid) : Domains := fun var =>
  if gridGet g var.1 var.2 ≠ 0 then [gridGet g var.1 var.2]
  else (List.range' 1 9).filter fun v =>
    !(((List.range 9).any fun pc =>
          gridGet g var.1 pc != 0 && gridGet g var.1 pc == v) ||
      ((List.range 9).any fun pr =>
          gridGet g pr var.2 != 0 && gridGet g pr var.2 == v) ||
      ((List.range' (var.1 / 3 * 3) 3).any fun br =>
        (List.range' (var.2 / 3 * 3) 3).any fun bc =>
          gridGet g br bc != 0 && gridGet g br bc == v))

/-- `initial_domains` from `sudoku.py` (the MRV variant): identical except
that the pruned list is passed through `sorted(...)` — modelled by a stable
structural sort, which agrees with Python's `sorted` on lists of numbers. -/
def initial_domains_mrv (g : Grid) : Domains := fun var =>
  if gridGet g var.1 var.2 ≠ 0 then [gridGet g var.1 var.2]
  else ((List.range' 1 9).filter fun v =>
    !(((List.range 9).any fun pc =>
          gridGet g var.1 pc != 0 && gridGet g var.1 pc == v) ||
      ((List.range 9).any fun pr =>
          gridGet g pr var.2 != 0 && gridGet g pr var.2 == v) ||
      ((List.range' (var.1 / 3 * 3) 3).any fun br =>
        (List.range' (var.2 / 3 * 3) 3).any fun bc =>
          gridGet g br bc != 0 && gridGet g br bc == v))).insertionSort (· ≤ ·)

/-- `peers_of` from `sudoku_forward_check.py` / `sudoku.py`: row peers, then
column peers, then the box peers not already listed. -/
def peers_of (var : Variable) : List Variable :=
  let rowPeers := (List.range 9).filterMap fun pc =>
    if pc ≠ var.2 then some (var.1, pc) else none
  let rcPeers := rowPeers ++ ((List.range 9).filterMap fun pr =>
    if pr ≠ var.1 then some (pr, var.2) else none)
  (List.range' (var.1 / 3 * 3) 3).foldl (fun ps br =>
    (List.range' (var.2 / 3 * 3) 3).foldl (fun ps bc =>
      if (br, bc) ≠ var ∧ (br, bc) ∉ ps then ps ++ [(br, bc)] else ps) ps)
    rcPeers

/-- The peer loop of `forward_check`: removes `value` from the domain of each
unassigned peer that contains it, appending to the pruning record `acc`; if a
peer's domain becomes empty it returns `none` at once — the record built so
far is discarded, while the removals stay in the returned domain store. -/
def forward_check_go (value : Nat) (g : Grid) :
    List Variable → Domains → List (Variable × Nat) →
    Option (List (Variable × Nat)) × Domains
  | [], d, acc => (some acc, d)
  | peer :: rest, d, acc =>
    if gridGet g peer.1 peer.2 ≠ 0 then forward_check_go value g rest d acc
    else if value ∈ d peer then
      let d' := updateD d peer ((d peer).erase value)
      let acc' := acc ++ [(peer, value)]
      if d' peer = [] then (none, d')
      else forward_check_go value g rest d' acc'
    else forward_check_go value g rest d acc

/-- `forward_check` from `sudoku_forward_check.py` (the body in `sudoku.py`
is identical): prune `assigned_value` from the domains of the unassigned
peers of `assign_variable`.  The second component is the domain store after
the call (the Python function mutates `domains` in place). -/
def forward_check (assign_variable : Variable) (assigned_value : Nat)
    (domains : Domains) (g : Grid) :
    Option (List (Variable × Nat)) × Domains :=
  forward_check_go assigned_value g (peers_of assign_variable) domains []

/-- `undo_pruning` from `sudoku_forward_check.py`: replay the record in
reverse, appending each removed value back unless it is already present. -/
def undo_pruning (pruned : List (Variable × Nat)) (d : Domains) : Domains :=
  pruned.reverse.foldl
    (fun d p => if p.2 ∈ d p.1 then d else updateD d p.1 (d p.1 ++ [p.2])) d

/-- Solver state for the forward-checking solver: grid, domain store, and the
two module-level counters. -/
structure FCState where
  grid : Grid
  domains : Domains
  assignments_count : Nat
  backtracks_count : Nat

/-- The `for value in list(domains[variable])` loop body of `backtrack_solve`
in `sudoku_forward_check.py`.  On a wipeout (`forward_check` returning
`None`) the caller skips `undo_pruning`, exactly as the source does. -/
def fc_try (recur : FCState → Option Grid × FCState) (var : Variable) :
    List Nat → FCState → Option Grid × FCState
  | [], s => (none, s)
  | value :: rest, s =>
    if check_constraint s.grid var value then
      let g1 := gridSet s.grid var.1 var.2 value
      let saved := s.domains var
      match forward_check var value (updateD s.domains var [value]) g1 with
      | (some pruned, d2) =>
        match recur ⟨g1, d2, s.assignments_count + 1, s.backtracks_count⟩ with
        | (some sol, s2) => (some sol, s2)
        | (none, s2) =>
            fc_try recur var rest
              ⟨gridSet s2.grid var.1 var.2 0,
               updateD (undo_pruning pruned s2.domains) var saved,
               s2.assignments_count, s2.backtracks_count + 1⟩
      | (none, d2) =>
          fc_try recur var rest
            ⟨gridSet g1 var.1 var.2 0, updateD d2 var saved,
             s.assignments_count + 1, s.backtracks_count + 1⟩
    else fc_try recur var rest s

/-- `backtrack_solve` from `sudoku_forward_check.py`, fuel-bounded exactly
like the plain solver. -/
def fc_solve_fuel : Nat → FCState → Option Grid × FCState
  | 0, s => (none, s)
  | fuel + 1, s =>
    match select_unassigned_variable s.grid with
    | none => (some s.grid, s)
    | some var => fc_try (fc_solve_fuel fuel) var (s.domains var) s

/-- Top-level forward-checking solve on a grid and a domain store, counters
reset to zero as done by the `__main__` driver. -/
def fc_backtrack_solve (g : Grid) (d : Domains) : Option Grid :=
  (fc_solve_fuel 82 ⟨g, d, 0, 0⟩).1

/-- Lexicographic order on cell coordinates — Python's tuple `<`. -/
def varLt (a b : Variable) : Prop := a.1 < b.1 ∨ (a.1 = b.1 ∧ a.2 < b.2)

instance (a b : Variable) : Decidable (varLt a b) := by unfold varLt; infer_instance

/-- The scanning loop of `select_unassigned_variable` in `sudoku.py` (MRV):
state is `(best_variable, best_domain_size)`, initially `(None, 10)`.  A
domain of size 0 returns at once; a new strict minimum updates the state and
returns at once when the size is 1; an equal size with an earlier coordinate
would replace the best (dead code for a row-major scan, kept faithfully). -/
def mrv_go (g : Grid) (d : Domains) :
    List Variable → Option Variable → Nat → Option Variable
  | [], best, _ => best
  | var :: rest, best, best_domain_size =>
    if gridGet g var.1 var.2 = 0 then
      let domain_size := (d var).length
      if domain_size = 0 then some var
      else if domain_size < best_domain_size then
        if domain_size = 1 then some var
        else mrv_go g d rest (some var) domain_size
      else
        match best with
        | some b =>
            if domain_size = best_domain_size ∧ varLt var b then
              mrv_go g d rest (some var) best_domain_size
            else mrv_go g d rest best best_domain_size
        | none => mrv_go g d rest best best_domain_size
    else mrv_go g d rest best best_domain_size

/-- `select_unassigned_variable` from `sudoku.py`: MRV over the row-major
cell enumeration, starting from no best variable and best size 10. -/
def select_unassigned_variable_mrv (g : Grid) (d : Domains) : Option Variable :=
  mrv_go g d get_variables none 10

namespace MapColoring

/-- A map-coloring variable is a region (state) name. -/
abbrev Region := String

/-- A color token from the palette. -/
abbrev Color := String

/-- The adjacency mapping, read only through `adjacency.get(variable, [])`. -/
abbrev Adjacency := Region → List Region

/-- The `assignments` dict: an insertion-ordered association list; keys stay
unique because the solver only ever inserts unassigned variables. -/
abbrev Assignments := List (Region × Color)

/-- `COLOR_PALETTE` from `map_coloring_csp.py`. -/
def COLOR_PALETTE : List Color :=
  ["#e31a93", "#ffff00", "#1f78b4", "#33a02c", "#e31a1c", "#ff7f00"]

/-- Code-point lexicographic comparison of character lists, the order Python
uses to compare strings. -/
def charListLe : List Char → List Char → Bool
  | [], _ => true
  | _ :: _, [] => false
  | a :: as, b :: bs =>
    a.toNat < b.toNat || (a.toNat == b.toNat && charListLe as bs)

/-- Python's `<=` on strings. -/
def strLe (a b : String) : Prop := charListLe a.data b.data = true

instance : DecidableRel strLe := fun a b => by unfold strLe; infer_instance

/-- `get_domain` from `map_coloring_csp.py`: the full palette, no
precoloring. -/
def get_domain (_xvar : Region) : List Color := COLOR_PALETTE

/-- Dictionary lookup `assignments[k]` / `k in assignments`. -/
def dictGet (asg : Assignments) (k : Region) : Option Color :=
  (asg.find? fun p => p.1 == k).map fun p => p.2

/-- Dictionary store `assignments[k] = v`: replace in place if the key is
present, else append (Python dict insertion-order semantics). -/
def dictSet (asg : Assignments) (k : Region) (v : Color) : Assignments :=
  if (asg.find? fun p => p.1 == k).isSome then
    asg.map fun p => if p.1 == k then (k, v) else p
  else asg ++ [(k, v)]

/-- Dictionary delete `del assignments[k]`. -/
def dictDel (asg : Assignments) (k : Region) : Assignments :=
  asg.eraseP fun p => p.1 == k

/-- `check_constraint` from `map_coloring_csp.py`: no already-assigned
neighbor of the variable holds `color_choice`. -/
def check_constraint (assignments : Assignments) (adjacency : Adjacency)
    (xvar : Region) (color_choice : Color) : Bool :=
  (adjacency xvar).all fun neighbor =>
    match dictGet assignments neighbor with
    | some c => c != color_choice
    | none => true

/-- `select_unassigned_variable` from `map_coloring_csp.py`: first variable
not yet assigned. -/
def select_unassigned_variable (vars : List Region)
    (assignments : Assignments) : Option Region :=
  vars.find? fun v => (dictGet assignments v).isNone

/-- Solver state: the `assignments` dict plus the module-level counters. -/
structure MCState where
  assignments : Assignments
  assignments_count : Nat
  backtracks_count : Nat

/-- The `for color_choice in domain_values` loop body of `backtrack_solve`
in `map_coloring_csp.py` (the `verbose` printing is pure output and is not
modelled). -/
def mc_try (recur : MCState → Option Assignments × MCState)
    (adjacency : Adjacency) (xvar : Region) :
    List Color → MCState → Option Assignments × MCState
  | [], s => (none, s)
  | color :: rest, s =>
    if check_constraint s.assignments adjacency xvar color then
      match recur ⟨dictSet s.assignments xvar color,
                   s.assignments_count + 1, s.backtracks_count⟩ with
      | (some sol, s2) => (some sol, s2)
      | (none, s2) =>
          mc_try recur adjacency xvar rest
            ⟨dictDel s2.assignments xvar,
             s2.assignments_count, s2.backtracks_count + 1⟩
    else mc_try recur adjacency xvar rest s

/-- `backtrack_solve` from `map_coloring_csp.py`, fuel-bounded (each level
assigns one fresh variable, so `vars.length + 1` fuel suffices when starting
from the empty assignment). -/
def mc_solve_fuel (vars : List Region) (adjacency : Adjacency) :
    Nat → MCState → Option Assignments × MCState
  | 0, s => (none, s)
  | fuel + 1, s =>
    if s.assignments.length = vars.length then (some s.assignments, s)
    else
      match select_unassigned_variable vars s.assignments with
      | none => (none, s)
      | some xvar =>
          mc_try (mc_solve_fuel vars adjacency fuel) adjacency xvar
            ((get_domain xvar).insertionSort strLe) s

/-- Top-level map-coloring solve `backtrack_solve(variables, adjacency, {})`,
counters reset to zero as done by the `__main__` driver. -/
def backtrack_solve (vars : List Region) (adjacency : Adjacency)
    (assignments : Assignments) : Option Assignments :=
  (mc_solve_fuel vars adjacency (vars.length + 1) ⟨assignments, 0, 0⟩).1

end MapColoring

/-! ## Basic facts about grid reads and writes -/

theorem list_set_self {α : Type} {l : List α} {i : Nat} {a : α}
    (h : l[i]? = some a) : l.set i a = l := by
  apply List.ext_getElem?
  intro n
  rcases eq_or_ne n i with rfl | hni
  · obtain ⟨hlt, _⟩ := List.getElem?_eq_some.1 h
    rw [List.getElem?_set_self hlt, h]
  · rw [List.getElem?_set_ne (Ne.symm hni)]

theorem getD_row {g : Grid} {r : Nat} (hrl : r < g.length) :
    g.getD r [] = g[r] := by
  rw [List.getD_eq_getElem?_getD, List.getElem?_eq_getElem hrl, Option.getD_some]

theorem row_length {g : Grid} (hg : WellFormed g) {r : Nat} (hrl : r < g.length) :
    g[r].length = 9 :=
  hg.2 _ (List.getElem_mem hrl)

theorem set_row_getD {g : Grid} {r : Nat} (row : List Nat) (hrl : r < g.length) :
    (g.set r row).getD r [] = row := by
  rw [List.getD_eq_getElem?_getD, List.getElem?_set_self hrl, Option.getD_some]

theorem gridGet_set_self {g : Grid} {r c : Nat} (v : Nat)
    (hg : WellFormed g) (hr : r < 9) (hc : c < 9) :
    gridGet (gridSet g r c v) r c = v := by
  have hrl : r < g.length := by rw [hg.1]; exact hr
  have hcl : c < (g.getD r []).length := by
    rw [getD_row hrl, row_length hg hrl]; exact hc
  show ((gridSet g r c v).getD r []).getD c 0 = v
  rw [show (gridSet g r c v).getD r [] = (g.getD r []).set c v from
      set_row_getD _ hrl,
    List.getD_eq_getElem?_getD, List.getElem?_set_self hcl, Option.getD_some]

theorem gridGet_set_ne {g : Grid} {r c r' c' : Nat} (v : Nat)
    (h : (r', c') ≠ (r, c)) :
    gridGet (gridSet g r c v) r' c' = gridGet g r' c' := by
  unfold gridGet gridSet
  rcases eq_or_ne r' r with rfl | hne
  · have hcc : c' ≠ c := by simpa using h
    rcases Nat.lt_or_ge r' g.length with hrl | hrl
    · rw [set_row_getD _ hrl, List.getD_eq_getElem?_getD,
        List.getElem?_set_ne (Ne.symm hcc), ← List.getD_eq_getElem?_getD]
    · rw [List.set_eq_of_length_le hrl]
  · have h1 : (g.set r ((g.getD r []).set c v)).getD r' [] = g.getD r' [] := by
      rw [List.getD_eq_getElem?_getD, List.getElem?_set_ne (Ne.symm hne),
        ← List.getD_eq_getElem?_getD]
    rw [h1]

/-- Writing `0` to an already empty cell leaves the grid unchanged. -/
theorem gridSet_same {g : Grid} {r c : Nat} (h : gridGet g r c = 0) :
    gridSet g r c 0 = g := by
  unfold gridSet
  rcases Nat.lt_or_ge r g.length with hrl | hrl
  · have hgrid : g.set r g[r] = g :=
      list_set_self (List.getElem?_eq_getElem hrl)
    rcases Nat.lt_or_ge c (g.getD r []).length with hcl | hcl
    · have hc0 : (g.getD r [])[c] = 0 := by
        have h' := h
        unfold gridGet at h'
        rwa [List.getD_eq_getElem?_getD, List.getElem?_eq_getElem hcl,
          Option.getD_some] at h'
      have hrow : (g.getD r []).set c 0 = g.getD r [] :=
        list_set_self (by rw [List.getElem?_eq_getElem hcl, hc0])
      rw [hrow, getD_row hrl, hgrid]
    · rw [List.set_eq_of_length_le hcl, getD_row hrl, hgrid]
  · rw [List.set_eq_of_length_le hrl]

/-- Undoing an assignment to a previously empty cell restores the grid. -/
theorem gridSet_cancel {g : Grid} {r c : Nat} (v : Nat)
    (h : gridGet g r c = 0) :
    gridSet (gridSet g r c v) r c 0 = g := by
  rcases Nat.lt_or_ge r g.length with hrl | hrl
  · have h1 : (gridSet g r c v).getD r [] = (g.getD r []).set c v :=
      set_row_getD _ hrl
    show (gridSet g r c v).set r (((gridSet g r c v).getD r []).set c 0) = g
    rw [h1, List.set_set]
    show (g.set r ((g.getD r []).set c v)).set r ((g.getD r []).set c 0) = g
    rw [List.set_set]
    exact gridSet_same h
  · have e1 : gridSet g r c v = g := by
      unfold gridSet; exact List.set_eq_of_length_le hrl
    rw [e1]
    exact gridSet_same h

theorem WellFormed_set {g : Grid} (r c v : Nat) (hg : WellFormed g) :
    WellFormed (gridSet g r c v) := by
  rcases Nat.lt_or_ge r g.length with hrl | hrl
  · constructor
    · show (g.set r _).length = 9
      rw [List.length_set]; exact hg.1
    · intro row hm
      rcases List.mem_or_eq_of_mem_set hm with hm' | rfl
      · exact hg.2 _ hm'
      · rw [List.length_set, getD_row hrl, row_length hg hrl]
  · have e1 : gridSet g r c v = g := by
      unfold gridSet; exact List.set_eq_of_length_le hrl
    rw [e1]; exact hg

/-! ## The variable selector and the constraint oracle -/

/-- Cells inside the 9×9 board. -/
def inR (p : Variable) : Prop := p.1 < 9 ∧ p.2 < 9

instance : DecidablePred inR := fun p => by unfold inR; infer_instance

/-- Two cells share a row, a column, or a 3×3 box. -/
def sameUnit (a b : Variable) : Prop :=
  a.1 = b.1 ∨ a.2 = b.2 ∨ (a.1 / 3 = b.1 / 3 ∧ a.2 / 3 = b.2 / 3)

instance (a b : Variable) : Decidable (sameUnit a b) := by
  unfold sameUnit; infer_instance

theorem get_variables_bounds : ∀ x ∈ get_variables, x.1 < 9 ∧ x.2 < 9 := by decide

theorem mem_get_variables : ∀ r < 9, ∀ c < 9, (r, c) ∈ get_variables := by decide

theorem select_some {g : Grid} {p : Variable}
    (h : select_unassigned_variable g = some p) :
    gridGet g p.1 p.2 = 0 ∧ inR p := by
  have h1 := List.find?_some h
  have h2 := List.mem_of_find?_eq_some h
  exact ⟨by simpa using h1, get_variables_bounds _ h2⟩

theorem select_none {g : Grid}
    (h : select_unassigned_variable g = none) :
    ∀ r < 9, ∀ c < 9, gridGet g r c ≠ 0 := by
  intro r hr c hc
  have := List.find?_eq_none.1 h (r, c) (mem_get_variables r hr c hc)
  simpa using this

theorem get_domain_empty {g : Grid} {var : Variable}
    (h : gridGet g var.1 var.2 = 0) :
    get_domain g var = List.range' 1 9 := by
  unfold get_domain
  simp [h]

theorem mem_range'_bounds : ∀ v ∈ List.range' 1 9, 1 ≤ v ∧ v ≤ 9 := by decide

/-- `check_constraint` succeeds exactly when no *other* cell of the same
row, column, or box currently holds the candidate value. -/
theorem check_constraint_iff {g : Grid} {r c value : Nat}
    (hr : r < 9) (hc : c < 9) :
    check_constraint g (r, c) value = true ↔
    ∀ p : Variable, inR p → sameUnit (r, c) p → p ≠ (r, c) →
      gridGet g p.1 p.2 ≠ value := by
  unfold check_constraint sameUnit inR
  simp only [List.all_eq_true, List.mem_range, List.mem_range',
    Bool.or_eq_true, Bool.and_eq_true, beq_iff_eq, bne_iff_ne, ne_eq]
  constructor
  · rintro ⟨⟨hrow, hcol⟩, hbox⟩ ⟨pr, pc⟩ ⟨hpr, hpc⟩ hunit hne
    simp only [ne_eq, Prod.mk.injEq, not_and] at hne
    rcases hunit with h1 | h2 | ⟨h3, h4⟩
    · rcases hrow pc hpc with h' | h'
      · exact absurd (by omega : pr = r ∧ pc = c) (by tauto)
      · simpa [h1] using h'
    · rcases hcol pr hpr with h' | h'
      · exact absurd (by omega : pr = r ∧ pc = c) (by tauto)
      · simpa [h2] using h'
    · have hbr : ∃ i < 3, pr = r / 3 * 3 + 1 * i := ⟨pr - r / 3 * 3, by omega⟩
      have hbc : ∃ i < 3, pc = c / 3 * 3 + 1 * i := ⟨pc - c / 3 * 3, by omega⟩
      rcases hbox pr hbr pc hbc with h' | h'
      · exact absurd h' (by tauto)
      · exact h'
  · intro H
    refine ⟨⟨?_, ?_⟩, ?_⟩
    · intro ci hci
      rcases eq_or_ne ci c with rfl | hic
      · exact Or.inl rfl
      · exact Or.inr (H (r, ci) ⟨hr, hci⟩ (Or.inl rfl) (by simp [hic]))
    · intro ri hri
      rcases eq_or_ne ri r with rfl | hir
      · exact Or.inl rfl
      · exact Or.inr (H (ri, c) ⟨hri, hc⟩ (Or.inr (Or.inl rfl)) (by simp [hir]))
    · rintro br ⟨i, hi, rfl⟩ bc ⟨j, hj, rfl⟩
      set pr := r / 3 * 3 + 1 * i with hpr
      set pc := c / 3 * 3 + 1 * j with hpc
      by_cases hself : pr = r ∧ pc = c
      · exact Or.inl hself
      · refine Or.inr (H (pr, pc) ⟨by omega, by omega⟩
          (Or.inr (Or.inr ⟨by omega, by omega⟩)) ?_)
        simp only [ne_eq, Prod.mk.injEq]
        tauto

/-! ## Soundness invariants of the plain backtracking solver -/

/-- `g'` agrees with `g` on every originally fixed (nonzero) cell. -/
def Extends (g g' : Grid) : Prop :=
  ∀ r < 9, ∀ c < 9, gridGet g r c ≠ 0 → gridGet g' r c = gridGet g r c

/-- Every cell of the board is filled. -/
def FullGrid (g : Grid) : Prop := ∀ r < 9, ∀ c < 9, gridGet g r c ≠ 0

/-- Every originally empty cell now holds a value in `1..9`. -/
def NewOK (g g' : Grid) : Prop :=
  ∀ r < 9, ∀ c < 9, gridGet g r c = 0 →
    1 ≤ gridGet g' r c ∧ gridGet g' r c ≤ 9

/-- No two distinct cells of a common unit hold equal values in `g'`,
provided at least one of them was empty in `g` (the solver never re-checks
two originally fixed cells against each other). -/
def NoConf (g g' : Grid) : Prop :=
  ∀ p q : Variable, inR p → inR q → p ≠ q → sameUnit p q →
    (gridGet g p.1 p.2 = 0 ∨ gridGet g q.1 q.2 = 0) →
    gridGet g' p.1 p.2 ≠ gridGet g' q.1 q.2

/-- Everything the solver guarantees about a returned solution. -/
def SolveOK (g sol : Grid) : Prop :=
  WellFormed sol ∧ Extends g sol ∧ FullGrid sol ∧ NewOK g sol ∧ NoConf g sol

theorem sameUnit_symm {a b : Variable} (h : sameUnit a b) : sameUnit b a := by
  rcases h with h | h | ⟨h1, h2⟩
  · exact Or.inl h.symm
  · exact Or.inr (Or.inl h.symm)
  · exact Or.inr (Or.inr ⟨h1.symm, h2.symm⟩)

theorem SolveOK_lift {g : Grid} {var : Variable} {v : Nat} {sol : Grid}
    (hg : WellFormed g) (hvar : inR var) (hempty : gridGet g var.1 var.2 = 0)
    (hv1 : 1 ≤ v) (hv9 : v ≤ 9)
    (hcheck : check_constraint g var v = true)
    (h : SolveOK (gridSet g var.1 var.2 v) sol) : SolveOK g sol := by
  obtain ⟨hWF, hExt, hFull, hNew, hConf⟩ := h
  have hget1 : gridGet (gridSet g var.1 var.2 v) var.1 var.2 = v :=
    gridGet_set_self v hg hvar.1 hvar.2
  have hsolvar : gridGet sol var.1 var.2 = v := by
    have := hExt var.1 hvar.1 var.2 hvar.2 (by rw [hget1]; omega)
    rw [hget1] at this; exact this
  have hCheck' := (check_constraint_iff hvar.1 hvar.2).1 hcheck
  have hExt' : Extends g sol := by
    intro r hr c hc h0
    have hneq : ((r, c) : Variable) ≠ var := by
      intro he; rw [← he] at hempty; exact h0 hempty
    have h1 : gridGet (gridSet g var.1 var.2 v) r c = gridGet g r c :=
      gridGet_set_ne v hneq
    rw [← h1]
    exact hExt r hr c hc (by rw [h1]; exact h0)
  have hAll : ∀ z : Variable, inR z → sameUnit var z → z ≠ var →
      gridGet g z.1 z.2 ≠ 0 → gridGet sol z.1 z.2 ≠ v := by
    intro z hz hu hzv hz0
    have hsz : gridGet sol z.1 z.2 = gridGet g z.1 z.2 :=
      hExt' z.1 hz.1 z.2 hz.2 hz0
    rw [hsz]
    exact hCheck' z hz hu hzv
  refine ⟨hWF, hExt', hFull, ?_, ?_⟩
  · intro r hr c hc h0
    rcases eq_or_ne ((r, c) : Variable) var with he | hne
    · have : gridGet sol r c = v := by
        have h2 : r = var.1 := by rw [← he]
        have h3 : c = var.2 := by rw [← he]
        rw [h2, h3]; exact hsolvar
      omega
    · have h1 : gridGet (gridSet g var.1 var.2 v) r c = gridGet g r c :=
        gridGet_set_ne v hne
      exact hNew r hr c hc (by rw [h1]; exact h0)
  · intro p q hp hq hpq hunit hzero
    by_cases hpv : p = var
    · by_cases hqv : q = var
      · exact absurd (hpv.trans hqv.symm) hpq
      · by_cases hq0 : gridGet g q.1 q.2 = 0
        · refine hConf p q hp hq hpq hunit (Or.inr ?_)
          rw [gridGet_set_ne v hqv]; exact hq0
        · have hpu : sameUnit var q := by rw [← hpv]; exact hunit
          have hsp : gridGet sol p.1 p.2 = v := by rw [hpv]; exact hsolvar
          rw [hsp]
          exact fun he => hAll q hq hpu hqv hq0 he.symm
    · by_cases hqv : q = var
      · by_cases hp0 : gridGet g p.1 p.2 = 0
        · refine hConf p q hp hq hpq hunit (Or.inl ?_)
          rw [gridGet_set_ne v hpv]; exact hp0
        · have hqu : sameUnit var p := by
            rw [← hqv]; exact sameUnit_symm hunit
          have hsq : gridGet sol q.1 q.2 = v := by rw [hqv]; exact hsolvar
          rw [hsq]
          exact hAll p hp hqu hpv hp0
      · refine hConf p q hp hq hpq hunit ?_
        rcases hzero with h0 | h0
        · exact Or.inl (by rw [gridGet_set_ne v hpv]; exact h0)
        · exact Or.inr (by rw [gridGet_set_ne v hqv]; exact h0)

theorem try_values_spec
    (recur : SState → Option Grid × SState)
    (Hnone : ∀ s s', WellFormed s.grid → recur s = (none, s') →
      s'.grid = s.grid)
    (Hsome : ∀ s sol s', WellFormed s.grid → recur s = (some sol, s') →
      s'.grid = sol ∧ SolveOK s.grid sol)
    (var : Variable) (hvar : inR var) :
    ∀ vs s, WellFormed s.grid → gridGet s.grid var.1 var.2 = 0 →
      (∀ v ∈ vs, 1 ≤ v ∧ v ≤ 9) →
      (∀ s', try_values recur var vs s = (none, s') → s'.grid = s.grid) ∧
      (∀ sol s', try_values recur var vs s = (some sol, s') →
        s'.grid = sol ∧ SolveOK s.grid sol) := by
  intro vs
  induction vs with
  | nil =>
    intro s hWF hempty hvals
    constructor
    · intro s' h
      rw [try_values] at h
      cases h; rfl
    · intro sol s' h
      rw [try_values] at h
      cases h
  | cons v rest IH =>
    intro s hWF hempty hvals
    have hv := hvals v (List.mem_cons_self ..)
    have hvals' : ∀ w ∈ rest, 1 ≤ w ∧ w ≤ 9 := fun w hw =>
      hvals w (List.mem_cons_of_mem _ hw)
    by_cases hcheck : check_constraint s.grid var v = true
    · rcases hrec : recur ⟨gridSet s.grid var.1 var.2 v,
          s.assignments_count + 1, s.backtracks_count⟩ with ⟨res, s2⟩
      have hWF1 : WellFormed (gridSet s.grid var.1 var.2 v) :=
        WellFormed_set _ _ _ hWF
      rcases res with _ | sol
      · -- recursion failed; the loop undoes the write and goes on
        have hs2 : s2.grid = gridSet s.grid var.1 var.2 v :=
          Hnone _ _ hWF1 hrec
        have hundo : gridSet s2.grid var.1 var.2 0 = s.grid := by
          rw [hs2]; exact gridSet_cancel v hempty
        have heq : try_values recur var (v :: rest) s =
            try_values recur var rest
              ⟨gridSet s2.grid var.1 var.2 0,
               s2.assignments_count, s2.backtracks_count + 1⟩ := by
          rw [try_values, if_pos hcheck, hrec]
        have IH' := IH ⟨gridSet s2.grid var.1 var.2 0,
            s2.assignments_count, s2.backtracks_count + 1⟩
          (by simpa [hundo] using hWF) (by simpa [hundo] using hempty) hvals'
        constructor
        · intro s' h
          rw [heq] at h
          have := IH'.1 s' h
          simpa [hundo] using this
        · intro sol s' h
          rw [heq] at h
          have := IH'.2 sol s' h
          simpa [hundo] using this
      · -- recursion succeeded: propagate the solution upward unchanged
        have heq : try_values recur var (v :: rest) s = (some sol, s2) := by
          rw [try_values, if_pos hcheck, hrec]
        have hsub := Hsome _ sol s2 hWF1 hrec
        constructor
        · intro s' h
          rw [heq] at h
          cases h
        · intro sol' s' h
          rw [heq] at h
          injection h with h1 h2
          injection h1 with h1
          subst h1; subst h2
          exact ⟨hsub.1, SolveOK_lift hWF hvar hempty hv.1 hv.2 hcheck hsub.2⟩
    · have heq : try_values recur var (v :: rest) s =
          try_values recur var rest s := by
        rw [try_values, if_neg hcheck]
      have IH' := IH s hWF hempty hvals'
      rw [heq]
      exact IH'

theorem backtrack_solve_fuel_spec :
    ∀ fuel s, WellFormed s.grid →
      (∀ s', backtrack_solve_fuel fuel s = (none, s') → s'.grid = s.grid) ∧
      (∀ sol s', backtrack_solve_fuel fuel s = (some sol, s') →
        s'.grid = sol ∧ SolveOK s.grid sol) := by
  intro fuel
  induction fuel with
  | zero =>
    intro s hWF
    constructor
    · intro s' h
      rw [backtrack_solve_fuel] at h
      cases h; rfl
    · intro sol s' h
      rw [backtrack_solve_fuel] at h
      cases h
  | succ fuel IH =>
    intro s hWF
    rcases hsel : select_unassigned_variable s.grid with _ | var
    · have heq : backtrack_solve_fuel (fuel + 1) s = (some s.grid, s) := by
        rw [backtrack_solve_fuel, hsel]
      constructor
      · intro s' h
        rw [heq] at h
        cases h
      · intro sol s' h
        rw [heq] at h
        injection h with h1 h2
        injection h1 with h1
        subst h1; subst h2
        have hfull : FullGrid s.grid := fun r hr c hc => select_none hsel r hr c hc
        refine ⟨rfl, hWF, fun r hr c hc _ => rfl, hfull, ?_, ?_⟩
        · intro r hr c hc h0
          exact absurd h0 (hfull r hr c hc)
        · intro p q hp hq hpq hunit hzero
          rcases hzero with h0 | h0
          · exact absurd h0 (hfull p.1 hp.1 p.2 hp.2)
          · exact absurd h0 (hfull q.1 hq.1 q.2 hq.2)
    · obtain ⟨hempty, hvar⟩ := select_some hsel
      have hvals : ∀ v ∈ get_domain s.grid var, 1 ≤ v ∧ v ≤ 9 := by
        rw [get_domain_empty hempty]; exact mem_range'_bounds
      have Htry := try_values_spec (backtrack_solve_fuel fuel)
        (fun t t' hWFt h => (IH t hWFt).1 t' h)
        (fun t sol t' hWFt h => (IH t hWFt).2 sol t' h)
        var hvar (get_domain s.grid var) s hWF hempty hvals
      have heq : backtrack_solve_fuel (fuel + 1) s =
          try_values (backtrack_solve_fuel fuel) var (get_domain s.grid var) s := by
        rw [backtrack_solve_fuel, hsel]
      constructor
      · intro s' h
        rw [heq] at h
        exact Htry.1 s' h
      · intro sol s' h
        rw [heq] at h
        exact Htry.2 sol s' h

/-- The given clues are mutually consistent: no two distinct cells of a
common unit hold the same nonzero value. -/
def GivensConsistent (g : Grid) : Prop :=
  ∀ r1 < 9, ∀ c1 < 9, ∀ r2 < 9, ∀ c2 < 9,
    ((r1, c1) : Variable) ≠ (r2, c2) → sameUnit (r1, c1) (r2, c2) →
    gridGet g r1 c1 ≠ 0 → gridGet g r2 c2 ≠ 0 →
    gridGet g r1 c1 ≠ gridGet g r2 c2

instance : DecidablePred GivensConsistent := fun g => by
  unfold GivensConsistent
  exact @Nat.decidableBallLT 9 _ fun r1 h1 =>
    @Nat.decidableBallLT 9 _ fun c1 h2 =>
      @Nat.decidableBallLT 9 _ fun r2 h3 =>
        @Nat.decidableBallLT 9 _ fun c2 h4 => inferInstance

/-- Nine pairwise distinct values from `1..9` hit every value exactly
once. -/
theorem nine_distinct_values (val : Nat → Nat)
    (hvals : ∀ k < 9, 1 ≤ val k ∧ val k ≤ 9)
    (hdist : ∀ k < 9, ∀ l < 9, k ≠ l → val k ≠ val l) :
    ∀ v, 1 ≤ v → v ≤ 9 → ∃! k, k < 9 ∧ val k = v := by
  intro v hv1 hv9
  let f : Fin 9 → Fin 9 := fun k => ⟨val k.1 - 1, by
    have := hvals k.1 k.2; omega⟩
  have hinj : Function.Injective f := by
    intro k l he
    have h1 := hvals k.1 k.2
    have h2 := hvals l.1 l.2
    have : val k.1 - 1 = val l.1 - 1 := congrArg Fin.val he
    have hvv : val k.1 = val l.1 := by omega
    by_contra hkl
    exact hdist k.1 k.2 l.1 l.2 (fun h => hkl (Fin.ext h)) hvv
  have hsurj := Finite.injective_iff_surjective.1 hinj
  obtain ⟨k, hk⟩ := hsurj ⟨v - 1, by omega⟩
  have hkv : val k.1 = v := by
    have h1 := hvals k.1 k.2
    have : val k.1 - 1 = v - 1 := congrArg Fin.val hk
    omega
  refine ⟨k.1, ⟨k.2, hkv⟩, ?_⟩
  intro l ⟨hl, hlv⟩
  by_contra hlk
  exact hdist l hl k.1 k.2 hlk (by rw [hlv, hkv])

/-- From the solver invariants and consistent givens: all peers differ and
all cells hold values in `1..9`. -/
theorem SolveOK_all_distinct {g sol : Grid}
    (hb : ∀ r < 9, ∀ c < 9, gridGet g r c ≤ 9)
    (hgc : GivensConsistent g) (hok : SolveOK g sol) :
    (∀ p q : Variable, inR p → inR q → p ≠ q → sameUnit p q →
      gridGet sol p.1 p.2 ≠ gridGet sol q.1 q.2) ∧
    (∀ r < 9, ∀ c < 9, 1 ≤ gridGet sol r c ∧ gridGet sol r c ≤ 9) := by
  obtain ⟨hWF, hExt, hFull, hNew, hConf⟩ := hok
  constructor
  · intro p q hp hq hpq hunit
    rcases eq_or_ne (gridGet g p.1 p.2) 0 with h0 | h0
    · exact hConf p q hp hq hpq hunit (Or.inl h0)
    · rcases eq_or_ne (gridGet g q.1 q.2) 0 with h0' | h0'
      · exact hConf p q hp hq hpq hunit (Or.inr h0')
      · rw [hExt p.1 hp.1 p.2 hp.2 h0, hExt q.1 hq.1 q.2 hq.2 h0']
        exact hgc p.1 hp.1 p.2 hp.2 q.1 hq.1 q.2 hq.2
          (by simpa using hpq) (by simpa using hunit) h0 h0'
  · intro r hr c hc
    rcases eq_or_ne (gridGet g r c) 0 with h0 | h0
    · exact hNew r hr c hc h0
    · rw [hExt r hr c hc h0]
      have := hb r hr c hc
      omega

/-- C1: on a 9×9 grid whose entries are 0 (empty) or 1–9 (givens) with all
givens mutually consistent, if `backtrack_solve` returns a grid, that grid
has each of 1–9 exactly once in every row, every column, and every 3×3 box,
and every originally nonzero cell keeps its original value. -/
theorem C1_backtrack_solve_sound
    (g sol : Grid) (hWF : WellFormed g)
    (hb : ∀ r < 9, ∀ c < 9, gridGet g r c ≤ 9)
    (hgc : GivensConsistent g)
    (hsol : backtrack_solve g = some sol) :
    (∀ r < 9, ∀ v, 1 ≤ v → v ≤ 9 → ∃! c, c < 9 ∧ gridGet sol r c = v) ∧
    (∀ c < 9, ∀ v, 1 ≤ v → v ≤ 9 → ∃! r, r < 9 ∧ gridGet sol r c = v) ∧
    (∀ br < 3, ∀ bc < 3, ∀ v, 1 ≤ v → v ≤ 9 →
      ∃! k, k < 9 ∧ gridGet sol (3 * br + k / 3) (3 * bc + k % 3) = v) ∧
    (∀ r < 9, ∀ c < 9, gridGet g r c ≠ 0 → gridGet sol r c = gridGet g r c) := by
  have hrun : ∃ s', backtrack_solve_fuel 82 ⟨g, 0, 0⟩ = (some sol, s') := by
    unfold backtrack_solve at hsol
    rcases h : backtrack_solve_fuel 82 ⟨g, 0, 0⟩ with ⟨res, s'⟩
    rw [h] at hsol
    simp only at hsol
    exact ⟨s', by rw [hsol]⟩
  obtain ⟨s', hrun⟩ := hrun
  have hok : SolveOK g sol :=
    ((backtrack_solve_fuel_spec 82 ⟨g, 0, 0⟩ hWF).2 sol s' hrun).2
  obtain ⟨hdiff, hval⟩ := SolveOK_all_distinct hb hgc hok
  refine ⟨?_, ?_, ?_, ?_⟩
  · intro r hr v hv1 hv9
    exact nine_distinct_values (fun c => gridGet sol r c)
      (fun c hc => hval r hr c hc)
      (fun c hc c' hc' hne =>
        hdiff (r, c) (r, c') ⟨hr, hc⟩ ⟨hr, hc'⟩ (by simp [hne])
          (Or.inl rfl)) v hv1 hv9
  · intro c hc v hv1 hv9
    exact nine_distinct_values (fun r => gridGet sol r c)
      (fun r hr => hval r hr c hc)
      (fun r hr r' hr' hne =>
        hdiff (r, c) (r', c) ⟨hr, hc⟩ ⟨hr', hc⟩ (by simp [hne])
          (Or.inr (Or.inl rfl))) v hv1 hv9
  · intro br hbr bc hbc v hv1 hv9
    refine nine_distinct_values
      (fun k => gridGet sol (3 * br + k / 3) (3 * bc + k % 3))
      (fun k hk => hval _ (by omega) _ (by omega)) ?_ v hv1 hv9
    intro k hk l hl hne
    refine hdiff (3 * br + k / 3, 3 * bc + k % 3)
      (3 * br + l / 3, 3 * bc + l % 3) ⟨by omega, by omega⟩
      ⟨by omega, by omega⟩ ?_ (Or.inr (Or.inr ⟨by omega, by omega⟩))
    simp only [ne_eq, Prod.mk.injEq, not_and]
    omega
  · exact hok.2.1

/-! ## Concrete test grids -/

/-- A complete valid Sudoku solution (row pattern grid with values 1 and 2
swapped). -/
def solvedGrid : Grid :=
  [[2,1,3,4,5,6,7,8,9],
   [4,5,6,7,8,9,2,1,3],
   [7,8,9,2,1,3,4,5,6],
   [1,3,4,5,6,7,8,9,2],
   [5,6,7,8,9,2,1,3,4],
   [8,9,2,1,3,4,5,6,7],
   [3,4,5,6,7,8,9,2,1],
   [6,7,8,9,2,1,3,4,5],
   [9,2,1,3,4,5,6,7,8]]

/-- `solvedGrid` with cell (0,0) cleared: a consistent puzzle solved in two
steps. -/
def puzzleOne : Grid := gridSet solvedGrid 0 0 0

/-- `solvedGrid` with cells (0,0), (0,1) and (3,0) cleared: a consistent
puzzle on which the plain solver succeeds while the forward-checking solver
loses the solution to the un-undone wipeout pruning. -/
def puzzleThree : Grid :=
  gridSet (gridSet (gridSet solvedGrid 0 0 0) 0 1 0) 3 0 0

/-- `solvedGrid` with (0,0) overwritten by 1: a full 9×9 grid holding two
identical fixed values (1) in row 0. -/
def dupGrid : Grid := gridSet solvedGrid 0 0 1

theorem C1_backtrack_solve_sound_witness :
    WellFormed puzzleOne ∧ (∀ r < 9, ∀ c < 9, gridGet puzzleOne r c ≤ 9) ∧
    GivensConsistent puzzleOne ∧ backtrack_solve puzzleOne = some solvedGrid ∧
    (∀ r < 9, ∀ c < 9, gridGet puzzleOne r c ≠ 0 →
      gridGet solvedGrid r c = gridGet puzzleOne r c) :=
  ⟨by decide, by decide, by decide, by decide,
   (C1_backtrack_solve_sound puzzleOne solvedGrid (by decide) (by decide)
     (by decide) (by decide)).2.2.2⟩

/-! ## Claims C7, C2, C4, C3: failure behaviour of the two Sudoku solvers -/

/-- C7 (counterexample): `dupGrid` is a 9×9 grid with two identical fixed
values in row 0 — hence unsolvable — yet `backtrack_solve` does not return
the not-found signal: with no empty cell to fill, it returns the grid as a
"solution" without re-validating the givens. -/
theorem C7_full_dup_grid_returned :
    WellFormed dupGrid ∧
    gridGet dupGrid 0 0 = 1 ∧ gridGet dupGrid 0 1 = 1 ∧
    backtrack_solve dupGrid ≠ none := by decide

/-- C7 (amended): on a 9×9 grid with two identical fixed values in one row,
`backtrack_solve` either returns the not-found signal — and then the final
grid state equals the input, zero cells mutated — or it returns a fully
populated grid that still carries the duplicated given values. -/
theorem C7_row_dup_behaviour
    (g : Grid) (hWF : WellFormed g)
    (r c1 c2 : Nat) (hr : r < 9) (hc1 : c1 < 9) (hc2 : c2 < 9)
    (_hne : c1 ≠ c2) (h0 : gridGet g r c1 ≠ 0)
    (hdup : gridGet g r c1 = gridGet g r c2) :
    ((backtrack_solve_fuel 82 ⟨g, 0, 0⟩).1 = none →
      (backtrack_solve_fuel 82 ⟨g, 0, 0⟩).2.grid = g) ∧
    (∀ sol, backtrack_solve g = some sol →
      gridGet sol r c1 = gridGet sol r c2 ∧ gridGet sol r c1 ≠ 0 ∧
      FullGrid sol) := by
  have hspec := backtrack_solve_fuel_spec 82 ⟨g, 0, 0⟩ hWF
  constructor
  · intro hnone
    rcases hrun : backtrack_solve_fuel 82 ⟨g, 0, 0⟩ with ⟨res, s'⟩
    rw [hrun] at hnone
    simp only at hnone
    subst hnone
    simpa using hspec.1 s' hrun
  · intro sol hsol
    have hrun : ∃ s', backtrack_solve_fuel 82 ⟨g, 0, 0⟩ = (some sol, s') := by
      unfold backtrack_solve at hsol
      rcases h : backtrack_solve_fuel 82 ⟨g, 0, 0⟩ with ⟨res, s'⟩
      rw [h] at hsol
      simp only at hsol
      exact ⟨s', by rw [hsol]⟩
    obtain ⟨s', hrun⟩ := hrun
    obtain ⟨hWFs, hExt, hFull, hNew, hConf⟩ := (hspec.2 sol s' hrun).2
    have h02 : gridGet g r c2 ≠ 0 := by rw [← hdup]; exact h0
    have e1 : gridGet sol r c1 = gridGet g r c1 := hExt r hr c1 hc1 h0
    have e2 : gridGet sol r c2 = gridGet g r c2 := hExt r hr c2 hc2 h02
    refine ⟨by rw [e1, e2, hdup], by rw [e1]; exact h0, hFull⟩

theorem C7_row_dup_behaviour_witness :
    WellFormed dupGrid ∧ (0 : Nat) < 9 ∧ (0 : Nat) < 9 ∧ (1 : Nat) < 9 ∧
    (0 : Nat) ≠ 1 ∧ gridGet dupGrid 0 0 ≠ 0 ∧
    gridGet dupGrid 0 0 = gridGet dupGrid 0 1 ∧
    (∀ sol, backtrack_solve dupGrid = some sol →
      gridGet sol 0 0 = gridGet sol 0 1 ∧ gridGet sol 0 0 ≠ 0 ∧
      FullGrid sol) :=
  ⟨by decide, by decide, by decide, by decide, by decide, by decide, by decide,
   (C7_row_dup_behaviour dupGrid (by decide) 0 0 1 (by decide) (by decide)
     (by decide) (by decide) (by decide) (by decide)).2⟩

/-- C2 (failing input): `puzzleThree` is a well-formed, fully consistent
puzzle.  The plain backtracking solver completes it to `solvedGrid`, while
the forward-checking solver started on `initial_domains` of the same grid
returns the not-found signal: the first trial `(0,0) := 1` wipes out the
domain of `(0,1)`, `forward_check` returns the failure signal discarding the
pruning record, the caller skips `undo_pruning`, and the emptied domain
poisons every remaining branch. -/
theorem C2_forward_checking_diverges :
    WellFormed puzzleThree ∧ GivensConsistent puzzleThree ∧
    backtrack_solve puzzleThree = some solvedGrid ∧
    fc_backtrack_solve puzzleThree (initial_domains puzzleThree) = none := by
  refine ⟨by decide, by decide, by decide, by decide⟩

/-- C4 (failing input): inside the forward-checking `backtrack_solve` on
`puzzleThree`, the first trial assigns value 1 to cell (0,0), collapses its
domain to `[1]`, and propagates.  Propagation signals a wipeout, so the
trial fails without recursing; after the trial's undo steps (no
`undo_pruning` since the record was discarded, clear the cell, restore the
saved domain of (0,0)) the domain store maps (0,1) to `[]`, while it held
`[1]` before the trial — the store is *not* restored to its pre-trial
state. -/
theorem C4_wipeout_trial_not_restored :
    (forward_check (0, 0) 1
      (updateD (initial_domains puzzleThree) (0, 0) [1])
      (gridSet puzzleThree 0 0 1)).1 = none ∧
    gridSet (gridSet puzzleThree 0 0 1) 0 0 0 = puzzleThree ∧
    updateD
      (forward_check (0, 0) 1
        (updateD (initial_domains puzzleThree) (0, 0) [1])
        (gridSet puzzleThree 0 0 1)).2
      (0, 0) (initial_domains puzzleThree (0, 0)) (0, 1) = [] ∧
    initial_domains puzzleThree (0, 1) = [1] := by
  refine ⟨by decide, by decide, by decide, by decide⟩

/-- C3 (counterexample): on this concrete call the domain of peer (0,1)
becomes empty, and `forward_check` returns the failure signal `none` — the
pruning record accumulated before the wipeout is *not* returned to the
caller (and hence never undone); the removal is still visible in the
returned domain store. -/
theorem C3_record_discarded_on_wipeout :
    (forward_check (0, 0) 1
      (updateD (initial_domains puzzleThree) (0, 0) [1])
      (gridSet puzzleThree 0 0 1)).1 = none ∧
    (forward_check (0, 0) 1
      (updateD (initial_domains puzzleThree) (0, 0) [1])
      (gridSet puzzleThree 0 0 1)).2 (0, 1) = [] ∧
    (updateD (initial_domains puzzleThree) (0, 0) [1]) (0, 1) = [1] ∧
    ((0, 1) : Variable) ∈ peers_of (0, 0) := by
  refine ⟨by decide, by decide, by decide, by decide⟩

/-! ## Claim C9: the instrumentation counters never influence the result -/

theorem try_values_counters
    (recur : SState → Option Grid × SState)
    (Hrec : ∀ g a b a' b',
      (recur ⟨g, a, b⟩).1 = (recur ⟨g, a', b'⟩).1 ∧
      (recur ⟨g, a, b⟩).2.grid = (recur ⟨g, a', b'⟩).2.grid)
    (var : Variable) :
    ∀ vs g a b a' b',
      (try_values recur var vs ⟨g, a, b⟩).1 =
        (try_values recur var vs ⟨g, a', b'⟩).1 ∧
      (try_values recur var vs ⟨g, a, b⟩).2.grid =
        (try_values recur var vs ⟨g, a', b'⟩).2.grid := by
  intro vs
  induction vs with
  | nil =>
    intro g a b a' b'
    constructor <;> rw [try_values, try_values]
  | cons v rest IH =>
    intro g a b a' b'
    by_cases hcheck : check_constraint g var v = true
    · rcases h1 : recur ⟨gridSet g var.1 var.2 v, a + 1, b⟩ with ⟨res1, t1⟩
      rcases h2 : recur ⟨gridSet g var.1 var.2 v, a' + 1, b'⟩ with ⟨res2, t2⟩
      have hrec := Hrec (gridSet g var.1 var.2 v) (a + 1) b (a' + 1) b'
      rw [h1, h2] at hrec
      simp only at hrec
      obtain ⟨hres, hgrid⟩ := hrec
      subst hres
      have e1 : try_values recur var (v :: rest) ⟨g, a, b⟩ =
          match (res1, t1) with
          | (some sol, s2) => (some sol, s2)
          | (none, s2) => try_values recur var rest
              ⟨gridSet s2.grid var.1 var.2 0,
               s2.assignments_count, s2.backtracks_count + 1⟩ := by
        rw [try_values, if_pos hcheck, h1]
      have e2 : try_values recur var (v :: rest) ⟨g, a', b'⟩ =
          match (res1, t2) with
          | (some sol, s2) => (some sol, s2)
          | (none, s2) => try_values recur var rest
              ⟨gridSet s2.grid var.1 var.2 0,
               s2.assignments_count, s2.backtracks_count + 1⟩ := by
        rw [try_values, if_pos hcheck, h2]
      rcases res1 with _ | sol
      · rw [e1, e2]
        simp only
        rw [hgrid]
        exact IH (gridSet t2.grid var.1 var.2 0) t1.assignments_count
          (t1.backtracks_count + 1) t2.assignments_count (t2.backtracks_count + 1)
      · rw [e1, e2]
        exact ⟨rfl, hgrid⟩
    · have e1 : try_values recur var (v :: rest) ⟨g, a, b⟩ =
          try_values recur var rest ⟨g, a, b⟩ := by
        rw [try_values, if_neg hcheck]
      have e2 : try_values recur var (v :: rest) ⟨g, a', b'⟩ =
          try_values recur var rest ⟨g, a', b'⟩ := by
        rw [try_values, if_neg hcheck]
      rw [e1, e2]
      exact IH g a b a' b'

theorem backtrack_solve_fuel_counters :
    ∀ fuel g a b a' b',
      (backtrack_solve_fuel fuel ⟨g, a, b⟩).1 =
        (backtrack_solve_fuel fuel ⟨g, a', b'⟩).1 ∧
      (backtrack_solve_fuel fuel ⟨g, a, b⟩).2.grid =
        (backtrack_solve_fuel fuel ⟨g, a', b'⟩).2.grid := by
  intro fuel
  induction fuel with
  | zero =>
    intro g a b a' b'
    constructor <;> rw [backtrack_solve_fuel, backtrack_solve_fuel]
  | succ fuel IH =>
    intro g a b a' b'
    rcases hsel : select_unassigned_variable g with _ | var
    · constructor <;>
        rw [show backtrack_solve_fuel (fuel + 1) ⟨g, a, b⟩ = (some g, ⟨g, a, b⟩)
              from by rw [backtrack_solve_fuel, hsel],
            show backtrack_solve_fuel (fuel + 1) ⟨g, a', b'⟩ = (some g, ⟨g, a', b'⟩)
              from by rw [backtrack_solve_fuel, hsel]]
    · have e1 : backtrack_solve_fuel (fuel + 1) ⟨g, a, b⟩ =
          try_values (backtrack_solve_fuel fuel) var (get_domain g var) ⟨g, a, b⟩ := by
        rw [backtrack_solve_fuel, hsel]
      have e2 : backtrack_solve_fuel (fuel + 1) ⟨g, a', b'⟩ =
          try_values (backtrack_solve_fuel fuel) var (get_domain g var) ⟨g, a', b'⟩ := by
        rw [backtrack_solve_fuel, hsel]
      rw [e1, e2]
      exact try_values_counters (backtrack_solve_fuel fuel) IH var
        (get_domain g var) g a b a' b'

namespace MapColoring

theorem mc_try_counters
    (recur : MCState → Option Assignments × MCState)
    (Hrec : ∀ asg a b a' b',
      (recur ⟨asg, a, b⟩).1 = (recur ⟨asg, a', b'⟩).1 ∧
      (recur ⟨asg, a, b⟩).2.assignments = (recur ⟨asg, a', b'⟩).2.assignments)
    (adjacency : Adjacency) (xvar : Region) :
    ∀ cs asg a b a' b',
      (mc_try recur adjacency xvar cs ⟨asg, a, b⟩).1 =
        (mc_try recur adjacency xvar cs ⟨asg, a', b'⟩).1 ∧
      (mc_try recur adjacency xvar cs ⟨asg, a, b⟩).2.assignments =
        (mc_try recur adjacency xvar cs ⟨asg, a', b'⟩).2.assignments := by
  intro cs
  induction cs with
  | nil =>
    intro asg a b a' b'
    constructor <;> rw [mc_try, mc_try]
  | cons color rest IH =>
    intro asg a b a' b'
    by_cases hcheck : check_constraint asg adjacency xvar color = true
    · rcases h1 : recur ⟨dictSet asg xvar color, a + 1, b⟩ with ⟨res1, t1⟩
      rcases h2 : recur ⟨dictSet asg xvar color, a' + 1, b'⟩ with ⟨res2, t2⟩
      have hrec := Hrec (dictSet asg xvar color) (a + 1) b (a' + 1) b'
      rw [h1, h2] at hrec
      simp only at hrec
      obtain ⟨hres, hasg⟩ := hrec
      subst hres
      have e1 : mc_try recur adjacency xvar (color :: rest) ⟨asg, a, b⟩ =
          match (res1, t1) with
          | (some sol, s2) => (some sol, s2)
          | (none, s2) => mc_try recur adjacency xvar rest
              ⟨dictDel s2.assignments xvar,
               s2.assignments_count, s2.backtracks_count + 1⟩ := by
        rw [mc_try, if_pos hcheck, h1]
      have e2 : mc_try recur adjacency xvar (color :: rest) ⟨asg, a', b'⟩ =
          match (res1, t2) with
          | (some sol, s2) => (some sol, s2)
          | (none, s2) => mc_try recur adjacency xvar rest
              ⟨dictDel s2.assignments xvar,
               s2.assignments_count, s2.backtracks_count + 1⟩ := by
        rw [mc_try, if_pos hcheck, h2]
      rcases res1 with _ | sol
      · rw [e1, e2]
        simp only
        rw [hasg]
        exact IH (dictDel t2.assignments xvar) t1.assignments_count
          (t1.backtracks_count + 1) t2.assignments_count
          (t2.backtracks_count + 1)
      · rw [e1, e2]
        exact ⟨rfl, hasg⟩
    · have e1 : mc_try recur adjacency xvar (color :: rest) ⟨asg, a, b⟩ =
          mc_try recur adjacency xvar rest ⟨asg, a, b⟩ := by
        rw [mc_try, if_neg hcheck]
      have e2 : mc_try recur adjacency xvar (color :: rest) ⟨asg, a', b'⟩ =
          mc_try recur adjacency xvar rest ⟨asg, a', b'⟩ := by
        rw [mc_try, if_neg hcheck]
      rw [e1, e2]
      exact IH asg a b a' b'

theorem mc_solve_fuel_counters (vars : List Region) (adjacency : Adjacency) :
    ∀ fuel asg a b a' b',
      (mc_solve_fuel vars adjacency fuel ⟨asg, a, b⟩).1 =
        (mc_solve_fuel vars adjacency fuel ⟨asg, a', b'⟩).1 ∧
      (mc_solve_fuel vars adjacency fuel ⟨asg, a, b⟩).2.assignments =
        (mc_solve_fuel vars adjacency fuel ⟨asg, a', b'⟩).2.assignments := by
  intro fuel
  induction fuel with
  | zero =>
    intro asg a b a' b'
    constructor <;> rw [mc_solve_fuel, mc_solve_fuel]
  | succ fuel IH =>
    intro asg a b a' b'
    by_cases hlen : asg.length = vars.length
    · constructor <;>
        rw [show mc_solve_fuel vars adjacency (fuel + 1) ⟨asg, a, b⟩ =
              (some asg, ⟨asg, a, b⟩) from by rw [mc_solve_fuel, if_pos hlen],
            show mc_solve_fuel vars adjacency (fuel + 1) ⟨asg, a', b'⟩ =
              (some asg, ⟨asg, a', b'⟩) from by rw [mc_solve_fuel, if_pos hlen]]
    · rcases hsel : select_unassigned_variable vars asg with _ | xvar
      · constructor <;>
          rw [show mc_solve_fuel vars adjacency (fuel + 1) ⟨asg, a, b⟩ =
                (none, ⟨asg, a, b⟩) from by
                  rw [mc_solve_fuel, if_neg hlen, hsel],
              show mc_solve_fuel vars adjacency (fuel + 1) ⟨asg, a', b'⟩ =
                (none, ⟨asg, a', b'⟩) from by
                  rw [mc_solve_fuel, if_neg hlen, hsel]]
      · have e1 : mc_solve_fuel vars adjacency (fuel + 1) ⟨asg, a, b⟩ =
            mc_try (mc_solve_fuel vars adjacency fuel) adjacency xvar
              ((get_domain xvar).insertionSort strLe) ⟨asg, a, b⟩ := by
          rw [mc_solve_fuel, if_neg hlen, hsel]
        have e2 : mc_solve_fuel vars adjacency (fuel + 1) ⟨asg, a', b'⟩ =
            mc_try (mc_solve_fuel vars adjacency fuel) adjacency xvar
              ((get_domain xvar).insertionSort strLe) ⟨asg, a', b'⟩ := by
          rw [mc_solve_fuel, if_neg hlen, hsel]
        rw [e1, e2]
        exact mc_try_counters (mc_solve_fuel vars adjacency fuel) IH adjacency
          xvar ((get_domain xvar).insertionSort strLe) asg a b a' b'

end MapColoring

/-- C9: the counters `assignments_count` / `backtracks_count` never influence
control flow — running either `backtrack_solve` (Sudoku, map coloring) from
any two initial counter states yields the same returned result (and the same
final grid / assignment dictionary) — and the top-level entry points start
from counters reset to zero, as the `__main__` drivers do before each solve
call. -/
theorem C9_counters_reset_and_inert :
    (∀ fuel g a b a' b',
      (backtrack_solve_fuel fuel ⟨g, a, b⟩).1 =
        (backtrack_solve_fuel fuel ⟨g, a', b'⟩).1 ∧
      (backtrack_solve_fuel fuel ⟨g, a, b⟩).2.grid =
        (backtrack_solve_fuel fuel ⟨g, a', b'⟩).2.grid) ∧
    (∀ g, backtrack_solve g = (backtrack_solve_fuel 82 ⟨g, 0, 0⟩).1) ∧
    (∀ vars adjacency fuel asg a b a' b',
      (MapColoring.mc_solve_fuel vars adjacency fuel ⟨asg, a, b⟩).1 =
        (MapColoring.mc_solve_fuel vars adjacency fuel ⟨asg, a', b'⟩).1 ∧
      (MapColoring.mc_solve_fuel vars adjacency fuel ⟨asg, a, b⟩).2.assignments =
        (MapColoring.mc_solve_fuel vars adjacency fuel ⟨asg, a', b'⟩).2.assignments) ∧
    (∀ vars adjacency asg, MapColoring.backtrack_solve vars adjacency asg =
      (MapColoring.mc_solve_fuel vars adjacency (vars.length + 1)
        ⟨asg, 0, 0⟩).1) :=
  ⟨fun fuel g a b a' b' => backtrack_solve_fuel_counters fuel g a b a' b',
   fun _ => rfl,
   fun vars adjacency fuel asg a b a' b' =>
     MapColoring.mc_solve_fuel_counters vars adjacency fuel asg a b a' b',
   fun _ _ _ => rfl⟩

/-! ## Claim C8: domain lists never acquire duplicates -/

theorem nodup_concat {α : Type} {l : List α} {x : α}
    (hx : x ∉ l) (hl : l.Nodup) : (l ++ [x]).Nodup := by
  rw [List.nodup_append]
  refine ⟨hl, List.nodup_singleton x, ?_⟩
  intro a ha hax
  rw [List.mem_singleton] at hax
  exact hx (hax ▸ ha)

theorem initial_domains_nodup (g : Grid) (var : Variable) :
    (initial_domains g var).Nodup := by
  unfold initial_domains
  split
  · exact List.nodup_singleton _
  · exact List.Nodup.filter _ (List.nodup_range' _ _)

theorem updateD_nodup {d : Domains} {var : Variable} {vs : List Nat}
    (hd : ∀ y, (d y).Nodup) (hvs : vs.Nodup) :
    ∀ y, ((updateD d var vs) y).Nodup := by
  intro y
  unfold updateD
  split
  · exact hvs
  · exact hd y

theorem forward_check_go_nodup (value : Nat) (g : Grid) :
    ∀ ps d acc, (∀ y, (d y).Nodup) →
      ∀ y, ((forward_check_go value g ps d acc).2 y).Nodup := by
  intro ps
  induction ps with
  | nil => intro d acc hd y; rw [forward_check_go]; exact hd y
  | cons peer rest IH =>
    intro d acc hd y
    rw [forward_check_go]
    have hd' : ∀ z, ((updateD d peer ((d peer).erase value)) z).Nodup :=
      updateD_nodup hd (List.Nodup.erase value (hd peer))
    split
    · exact IH d acc hd y
    · dsimp only
      split
      · split
        · exact hd' y
        · exact IH _ _ hd' y
      · exact IH d acc hd y

theorem undo_pruning_nodup :
    ∀ (ps : List (Variable × Nat)) (d : Domains), (∀ y, (d y).Nodup) →
      ∀ y, ((ps.foldl (fun d p =>
        if p.2 ∈ d p.1 then d else updateD d p.1 (d p.1 ++ [p.2])) d) y).Nodup := by
  intro ps
  induction ps with
  | nil => intro d hd y; exact hd y
  | cons p rest IH =>
    intro d hd y
    rw [List.foldl_cons]
    by_cases hmem : p.2 ∈ d p.1
    · rw [if_pos hmem]
      exact IH d hd y
    · rw [if_neg hmem]
      exact IH _ (updateD_nodup hd (nodup_concat hmem (hd p.1))) y

/-- C8: if every domain list is duplicate-free, it stays duplicate-free
under all four solver operations — building `initial_domains`, collapsing
the trial variable's domain to a singleton, pruning by `forward_check`, and
re-inserting by `undo_pruning` (which skips values already present). -/
theorem C8_domains_stay_nodup :
    (∀ g var, (initial_domains g var).Nodup) ∧
    (∀ (d : Domains) var v, (∀ y, (d y).Nodup) →
      ∀ y, ((updateD d var [v]) y).Nodup) ∧
    (∀ var value (d : Domains) g, (∀ y, (d y).Nodup) →
      ∀ y, (((forward_check var value d g).2) y).Nodup) ∧
    (∀ pruned (d : Domains), (∀ y, (d y).Nodup) →
      ∀ y, ((undo_pruning pruned d) y).Nodup) :=
  ⟨initial_domains_nodup,
   fun _ var v hd => updateD_nodup hd (List.nodup_singleton v),
   fun var value d g hd => forward_check_go_nodup value g (peers_of var) d [] hd,
   fun pruned d hd => undo_pruning_nodup pruned.reverse d hd⟩

theorem C8_domains_stay_nodup_witness :
    (∀ y, ((initial_domains puzzleThree) y).Nodup) ∧
    (∀ y, ((undo_pruning [((0, 1), 1)] (initial_domains puzzleThree)) y).Nodup) :=
  ⟨fun y => C8_domains_stay_nodup.1 puzzleThree y,
   C8_domains_stay_nodup.2.2.2 [((0, 1), 1)] (initial_domains puzzleThree)
     (fun y => C8_domains_stay_nodup.1 puzzleThree y)⟩

/-! ## Claim C3: exact behaviour of `forward_check` -/

theorem foldl_preserve {α : Type} {β : Type} (P : α → Prop) (f : α → β → α)
    (hf : ∀ a b, P a → P (f a b)) :
    ∀ (l : List β) (a : α), P a → P (l.foldl f a) := by
  intro l
  induction l with
  | nil => intro a ha; exact ha
  | cons x xs IH => intro a ha; exact IH (f a x) (hf a x ha)

theorem peers_of_nodup (var : Variable) : (peers_of var).Nodup := by
  unfold peers_of
  apply foldl_preserve (fun ps : List Variable => ps.Nodup)
  · intro ps br hps
    apply foldl_preserve (fun ps : List Variable => ps.Nodup)
    · intro ps bc hps'
      split
      · next h => exact nodup_concat h.2 hps'
      · exact hps'
    · exact hps
  · rw [List.nodup_append]
    refine ⟨?_, ?_, ?_⟩
    · apply List.Nodup.filterMap ?_ (List.nodup_range 9)
      intro a a' b hb hb'
      simp only [Option.mem_def] at hb hb'
      split at hb
      · split at hb'
        · cases hb; cases hb'; rfl
        · cases hb'
      · cases hb
    · apply List.Nodup.filterMap ?_ (List.nodup_range 9)
      intro a a' b hb hb'
      simp only [Option.mem_def] at hb hb'
      split at hb
      · split at hb'
        · cases hb; cases hb'; rfl
        · cases hb'
      · cases hb
    · intro p hp hq
      simp only [List.mem_filterMap, List.mem_range] at hp hq
      obtain ⟨pc, _, hpc⟩ := hp
      obtain ⟨pr, _, hpr⟩ := hq
      split at hpc
      · next hne =>
        cases hpc
        split at hpr
        · next hne' => cases hpr; exact hne rfl
        · cases hpr
      · cases hpc

/-- Processing peer `q` would empty its domain: it is unassigned, its domain
contains the value, and removing the value leaves nothing. -/
def wipes (value : Nat) (g : Grid) (d : Domains) (q : Variable) : Prop :=
  gridGet g q.1 q.2 = 0 ∧ value ∈ d q ∧ (d q).erase value = []

instance (value : Nat) (g : Grid) (d : Domains) (q : Variable) :
    Decidable (wipes value g d q) := by unfold wipes; infer_instance

theorem fc_go_success (value : Nat) (g : Grid) :
    ∀ (ps : List Variable) (d : Domains) (acc : List (Variable × Nat)),
      ps.Nodup → (∀ q ∈ ps, ¬ wipes value g d q) →
      (forward_check_go value g ps d acc).1 =
        some (acc ++ (ps.filter fun p =>
          decide (gridGet g p.1 p.2 = 0 ∧ value ∈ d p)).map fun p => (p, value)) ∧
      ∀ y, (forward_check_go value g ps d acc).2 y =
        if y ∈ ps ∧ gridGet g y.1 y.2 = 0 ∧ value ∈ d y
        then (d y).erase value else d y := by
  intro ps
  induction ps with
  | nil =>
    intro d acc _ _
    rw [forward_check_go]
    refine ⟨by simp, ?_⟩
    intro y
    simp
  | cons p rest IH =>
    intro d acc hnd hnw
    obtain ⟨hp_rest, hnd_rest⟩ := List.nodup_cons.1 hnd
    by_cases hassigned : gridGet g p.1 p.2 ≠ 0
    · have heq : forward_check_go value g (p :: rest) d acc =
          forward_check_go value g rest d acc := by
        rw [forward_check_go, if_pos hassigned]
      have IH' := IH d acc hnd_rest (fun q hq => hnw q (List.mem_cons_of_mem _ hq))
      rw [heq]
      refine ⟨?_, ?_⟩
      · rw [IH'.1]
        congr 2
        rw [List.filter_cons]
        simp [hassigned]
      · intro y
        rw [IH'.2 y]
        rcases eq_or_ne y p with rfl | hyp
        · simp [hp_rest, hassigned]
        · simp [hyp]
    · push_neg at hassigned
      by_cases hmem : value ∈ d p
      · have hnwp := hnw p (List.mem_cons_self ..)
        have herase : (d p).erase value ≠ [] := by
          intro he
          exact hnwp ⟨hassigned, hmem, he⟩
        have hd'p : (updateD d p ((d p).erase value)) p = (d p).erase value := by
          unfold updateD; simp
        have heq : forward_check_go value g (p :: rest) d acc =
            forward_check_go value g rest (updateD d p ((d p).erase value))
              (acc ++ [(p, value)]) := by
          rw [forward_check_go, if_neg (by simpa using hassigned), if_pos hmem]
          dsimp only
          rw [if_neg (by rw [hd'p]; exact herase)]
        have hd'rest : ∀ q ∈ rest, (updateD d p ((d p).erase value)) q = d q := by
          intro q hq
          unfold updateD
          rw [if_neg]
          intro he
          exact hp_rest (he ▸ hq)
        have IH' := IH (updateD d p ((d p).erase value)) (acc ++ [(p, value)])
          hnd_rest (fun q hq hw => hnw q (List.mem_cons_of_mem _ hq)
            (by rwa [wipes, hd'rest q hq] at hw))
        rw [heq]
        refine ⟨?_, ?_⟩
        · rw [IH'.1]
          have hfilter : (rest.filter fun q =>
              decide (gridGet g q.1 q.2 = 0 ∧
                value ∈ (updateD d p ((d p).erase value)) q)) =
              rest.filter fun q =>
                decide (gridGet g q.1 q.2 = 0 ∧ value ∈ d q) := by
            apply List.filter_congr
            intro q hq
            rw [hd'rest q hq]
          rw [hfilter, List.filter_cons]
          simp [hassigned, hmem]
        · intro y
          rw [IH'.2 y]
          rcases eq_or_ne y p with rfl | hyp
          · simp only [hp_rest, false_and, if_neg, hd'p]
            simp [hassigned, hmem]
          · have : (updateD d p ((d p).erase value)) y = d y := by
              unfold updateD; rw [if_neg hyp]
            rw [this]
            simp [hyp]
      · have heq : forward_check_go value g (p :: rest) d acc =
            forward_check_go value g rest d acc := by
          rw [forward_check_go, if_neg (by simpa using hassigned), if_neg hmem]
        have IH' := IH d acc hnd_rest (fun q hq => hnw q (List.mem_cons_of_mem _ hq))
        rw [heq]
        refine ⟨?_, ?_⟩
        · rw [IH'.1]
          congr 2
          rw [List.filter_cons]
          simp [hmem]
        · intro y
          rw [IH'.2 y]
          rcases eq_or_ne y p with rfl | hyp
          · simp [hp_rest, hmem]
          · simp [hyp]

theorem fc_go_wipe (value : Nat) (g : Grid) :
    ∀ (ps : List Variable) (d : Domains) (acc : List (Variable × Nat)),
      ps.Nodup → (∃ q ∈ ps, wipes value g d q) →
      ∃ pre p suf, ps = pre ++ p :: suf ∧
        (∀ q ∈ pre, ¬ wipes value g d q) ∧ wipes value g d p ∧
        (forward_check_go value g ps d acc).1 = none ∧
        ∀ y, (forward_check_go value g ps d acc).2 y =
          if (y ∈ pre ∨ y = p) ∧ gridGet g y.1 y.2 = 0 ∧ value ∈ d y
          then (d y).erase value else d y := by
  intro ps
  induction ps with
  | nil =>
    intro d acc _ hex
    simp at hex
  | cons p0 rest IH =>
    intro d acc hnd hex
    obtain ⟨hp_rest, hnd_rest⟩ := List.nodup_cons.1 hnd
    by_cases hw0 : wipes value g d p0
    · refine ⟨[], p0, rest, by simp, by simp, hw0, ?_, ?_⟩
      · rw [forward_check_go, if_neg (by simpa using hw0.1), if_pos hw0.2.1]
        dsimp only
        rw [if_pos (by unfold updateD; simpa using hw0.2.2)]
      · intro y
        rw [forward_check_go, if_neg (by simpa using hw0.1), if_pos hw0.2.1]
        dsimp only
        rw [if_pos (by unfold updateD; simpa using hw0.2.2)]
        rcases eq_or_ne y p0 with rfl | hyp
        · simp only [List.not_mem_nil, false_or]
          rw [if_pos ⟨by trivial, hw0.1, hw0.2.1⟩]
          unfold updateD; simp
        · simp only [List.not_mem_nil, false_or]
          rw [if_neg (by intro hcon; exact hyp hcon.1)]
          unfold updateD; rw [if_neg hyp]
    · have hex' : ∃ q ∈ rest, wipes value g d q := by
        rcases hex with ⟨q, hq, hwq⟩
        rcases List.mem_cons.1 hq with rfl | hq'
        · exact absurd hwq hw0
        · exact ⟨q, hq', hwq⟩
      by_cases hassigned : gridGet g p0.1 p0.2 ≠ 0
      · have heq : forward_check_go value g (p0 :: rest) d acc =
            forward_check_go value g rest d acc := by
          rw [forward_check_go, if_pos hassigned]
        obtain ⟨pre, p, suf, hsplit, hpre, hwp, hres, hdom⟩ :=
          IH d acc hnd_rest hex'
        refine ⟨p0 :: pre, p, suf, by rw [hsplit]; rfl, ?_, hwp, by rw [heq]; exact hres, ?_⟩
        · intro q hq
          rcases List.mem_cons.1 hq with rfl | hq'
          · exact hw0
          · exact hpre q hq'
        · intro y
          rw [heq, hdom y]
          rcases eq_or_ne y p0 with rfl | hyp
          · rw [if_neg, if_neg]
            · intro hcon
              exact (by simpa using hassigned : ¬ gridGet g y.1 y.2 = 0) hcon.2.1
            · intro hcon
              exact (by simpa using hassigned : ¬ gridGet g y.1 y.2 = 0) hcon.2.1
          · exact if_congr (by simp [hyp]) rfl rfl
      · push_neg at hassigned
        by_cases hmem : value ∈ d p0
        · have herase : (d p0).erase value ≠ [] := by
            intro he
            exact hw0 ⟨hassigned, hmem, he⟩
          have hd'p : (updateD d p0 ((d p0).erase value)) p0 = (d p0).erase value := by
            unfold updateD; simp
          have heq : forward_check_go value g (p0 :: rest) d acc =
              forward_check_go value g rest (updateD d p0 ((d p0).erase value))
                (acc ++ [(p0, value)]) := by
            rw [forward_check_go, if_neg (by simpa using hassigned), if_pos hmem]
            dsimp only
            rw [if_neg (by rw [hd'p]; exact herase)]
          have hd'rest : ∀ q ∈ rest, (updateD d p0 ((d p0).erase value)) q = d q := by
            intro q hq
            unfold updateD
            rw [if_neg]
            intro he
            exact hp_rest (he ▸ hq)
          have hex'' : ∃ q ∈ rest, wipes value g
              (updateD d p0 ((d p0).erase value)) q := by
            rcases hex' with ⟨q, hq, hwq⟩
            exact ⟨q, hq, by rwa [wipes, hd'rest q hq]⟩
          obtain ⟨pre, p, suf, hsplit, hpre, hwp, hres, hdom⟩ :=
            IH (updateD d p0 ((d p0).erase value)) (acc ++ [(p0, value)])
              hnd_rest hex''
          have hp_ne_p0 : p ≠ p0 := by
            intro he
            apply hp_rest
            rw [← he, hsplit]
            exact List.mem_append_right _ (List.mem_cons_self ..)
          refine ⟨p0 :: pre, p, suf, by rw [hsplit]; rfl, ?_, ?_, by rw [heq]; exact hres, ?_⟩
          · intro q hq
            rcases List.mem_cons.1 hq with rfl | hq'
            · exact hw0
            · intro hwq
              apply hpre q hq'
              have hq_rest : q ∈ rest := by
                rw [hsplit]; exact List.mem_append_left _ hq'
              rwa [wipes, hd'rest q hq_rest]
          · have hp_rest' : p ∈ rest := by
              rw [hsplit]
              exact List.mem_append_right _ (List.mem_cons_self ..)
            rwa [wipes, hd'rest p hp_rest'] at hwp
          · intro y
            rw [heq, hdom y]
            rcases eq_or_ne y p0 with rfl | hyp
            · have hy_pre : y ∉ pre := by
                intro hcon
                apply hp_rest
                rw [hsplit]
                exact List.mem_append_left _ hcon
              rw [if_neg (by
                  intro hcon
                  rcases hcon.1 with h | h
                  · exact hy_pre h
                  · exact hp_ne_p0 h.symm),
                hd'p,
                if_pos ⟨Or.inl (List.mem_cons_self ..), hassigned, hmem⟩]
            · have hdy : (updateD d p0 ((d p0).erase value)) y = d y := by
                unfold updateD; rw [if_neg hyp]
              rw [hdy]
              exact if_congr (by simp [hyp]) rfl rfl
        · have heq : forward_check_go value g (p0 :: rest) d acc =
              forward_check_go value g rest d acc := by
            rw [forward_check_go, if_neg (by simpa using hassigned), if_neg hmem]
          obtain ⟨pre, p, suf, hsplit, hpre, hwp, hres, hdom⟩ :=
            IH d acc hnd_rest hex'
          refine ⟨p0 :: pre, p, suf, by rw [hsplit]; rfl, ?_, hwp, by rw [heq]; exact hres, ?_⟩
          · intro q hq
            rcases List.mem_cons.1 hq with rfl | hq'
            · exact hw0
            · exact hpre q hq'
          · intro y
            rw [heq, hdom y]
            rcases eq_or_ne y p0 with rfl | hyp
            · rw [if_neg (fun hcon => hmem hcon.2.2),
                if_neg (fun hcon => hmem hcon.2.2)]
            · exact if_congr (by simp [hyp]) rfl rfl

/-- C3 (amended): `forward_check` removes `value` from the domain of every
unassigned peer containing it and appends `(peer, value)` to the record; if
no peer's domain would be emptied, the full record and the pointwise-pruned
store are returned.  If some peer's domain would be emptied, the scan stops
at the first such peer: that peer and the earlier ones are pruned, the later
peers are untouched, and the function returns the failure signal `none` —
the partial record is discarded, so the caller (which guards its
`undo_pruning` by `pruned is not None`) never undoes those removals. -/
theorem C3_forward_check_behaviour
    (var : Variable) (value : Nat) (d : Domains) (g : Grid) :
    ((∀ q ∈ peers_of var, ¬ wipes value g d q) →
      (forward_check var value d g).1 =
        some (((peers_of var).filter fun p =>
          decide (gridGet g p.1 p.2 = 0 ∧ value ∈ d p)).map fun p => (p, value)) ∧
      ∀ y, (forward_check var value d g).2 y =
        if y ∈ peers_of var ∧ gridGet g y.1 y.2 = 0 ∧ value ∈ d y
        then (d y).erase value else d y) ∧
    ((∃ q ∈ peers_of var, wipes value g d q) →
      ∃ pre p suf, peers_of var = pre ++ p :: suf ∧
        (∀ q ∈ pre, ¬ wipes value g d q) ∧ wipes value g d p ∧
        (forward_check var value d g).1 = none ∧
        ∀ y, (forward_check var value d g).2 y =
          if (y ∈ pre ∨ y = p) ∧ gridGet g y.1 y.2 = 0 ∧ value ∈ d y
          then (d y).erase value else d y) := by
  constructor
  · intro hnw
    have h := fc_go_success value g (peers_of var) d [] (peers_of_nodup var) hnw
    refine ⟨?_, h.2⟩
    show (forward_check_go value g (peers_of var) d []).1 = _
    rw [h.1]
    simp
  · intro hex
    exact fc_go_wipe value g (peers_of var) d [] (peers_of_nodup var) hex

/-- A fully empty 9×9 grid (no assignments), used as a witness input. -/
def zeroGrid : Grid := List.replicate 9 (List.replicate 9 0)

/-- A domain store giving every cell the two candidates 1 and 2. -/
def twoDomains : Domains := fun _ => [1, 2]

theorem C3_forward_check_behaviour_witness :
    (∀ q ∈ peers_of (0, 0), ¬ wipes 1 zeroGrid twoDomains q) ∧
    ((forward_check (0, 0) 1 twoDomains zeroGrid).1 =
      some (((peers_of (0, 0)).filter fun p =>
        decide (gridGet zeroGrid p.1 p.2 = 0 ∧ 1 ∈ twoDomains p)).map
          fun p => (p, 1)) ∧
    ∀ y, (forward_check (0, 0) 1 twoDomains zeroGrid).2 y =
      if y ∈ peers_of (0, 0) ∧ gridGet zeroGrid y.1 y.2 = 0 ∧ 1 ∈ twoDomains y
      then (twoDomains y).erase 1 else twoDomains y) :=
  ⟨by decide, (C3_forward_check_behaviour (0, 0) 1 twoDomains zeroGrid).1 (by decide)⟩

/-! ## Claim C6: the MRV selector -/

theorem varLt_asymm {a b : Variable} (h : varLt a b) : ¬ varLt b a := by
  unfold varLt at *
  omega

theorem mrv_go_no_empty (g : Grid) (d : Domains) :
    ∀ (L : List Variable) (best : Option Variable) (bsz : Nat),
      (∀ x ∈ L, gridGet g x.1 x.2 ≠ 0) →
      mrv_go g d L best bsz = best := by
  intro L
  induction L with
  | nil => intro best bsz _; rw [mrv_go]
  | cons x L IH =>
    intro best bsz hne
    rw [mrv_go, if_neg (hne x (List.mem_cons_self ..))]
    exact IH best bsz fun y hy => hne y (List.mem_cons_of_mem _ hy)

/-- The same scan as `mrv_go` without the early returns and without the
(dead) tie-breaking branch: the plain "keep the first strict minimum"
fold. -/
def specMin (g : Grid) (d : Domains) :
    List Variable → Option Variable → Nat → Option Variable
  | [], best, _ => best
  | x :: L, best, bsz =>
    if gridGet g x.1 x.2 = 0 ∧ (d x).length < bsz
    then specMin g d L (some x) (d x).length
    else specMin g d L best bsz

theorem specMin_stuck (g : Grid) (d : Domains) :
    ∀ (L : List Variable) (b : Variable),
      (∀ x ∈ L, gridGet g x.1 x.2 = 0 → 1 ≤ (d x).length) →
      specMin g d L (some b) 1 = some b := by
  intro L
  induction L with
  | nil => intro b _; rw [specMin]
  | cons x L IH =>
    intro b h1
    rw [specMin, if_neg]
    · exact IH b fun y hy => h1 y (List.mem_cons_of_mem _ hy)
    · rintro ⟨hx0, hlt⟩
      have := h1 x (List.mem_cons_self ..) hx0
      omega

theorem mrv_go_eq_specMin (g : Grid) (d : Domains) :
    ∀ (L : List Variable) (best : Option Variable) (bsz : Nat),
      L.Pairwise varLt →
      (∀ x ∈ L, gridGet g x.1 x.2 = 0 → 1 ≤ (d x).length) →
      2 ≤ bsz →
      (∀ b, best = some b → ∀ x ∈ L, varLt b x) →
      mrv_go g d L best bsz = specMin g d L best bsz := by
  intro L
  induction L with
  | nil => intro best bsz _ _ _ _; rw [mrv_go, specMin]
  | cons x L IH =>
    intro best bsz hsort h1 h2 hbelow
    obtain ⟨hx_lt, hsort'⟩ := List.pairwise_cons.1 hsort
    have h1' : ∀ y ∈ L, gridGet g y.1 y.2 = 0 → 1 ≤ (d y).length :=
      fun y hy => h1 y (List.mem_cons_of_mem _ hy)
    by_cases hx0 : gridGet g x.1 x.2 = 0
    · have hx1 := h1 x (List.mem_cons_self ..) hx0
      rw [mrv_go, if_pos hx0, specMin]
      dsimp only
      rw [if_neg (by omega : ¬ (d x).length = 0)]
      by_cases hlt : (d x).length < bsz
      · rw [if_pos hlt]
        rw [if_pos (show gridGet g x.1 x.2 = 0 ∧ (d x).length < bsz from ⟨hx0, hlt⟩)]
        by_cases hone : (d x).length = 1
        · rw [if_pos hone, hone]
          exact (specMin_stuck g d L x h1').symm
        · rw [if_neg hone]
          exact IH (some x) (d x).length hsort' h1' (by omega)
            (fun b hb => by cases hb; exact hx_lt)
      · rw [if_neg hlt, if_neg (by rintro ⟨_, h⟩; exact hlt h)]
        rcases best with _ | b
        · dsimp only
          exact IH none bsz hsort' h1' h2 (by intro b hb; cases hb)
        · dsimp only
          rw [if_neg]
          · exact IH (some b) bsz hsort' h1' h2 (by
              intro b' hb'
              have hb2 : b' = b := by injection hb' with h; exact h.symm
              subst hb2
              intro y hy
              exact hbelow b' rfl y (List.mem_cons_of_mem _ hy))
          · rintro ⟨_, hlt'⟩
            exact varLt_asymm (hbelow b rfl x (List.mem_cons_self ..)) hlt'
    · rw [mrv_go, if_neg hx0, specMin, if_neg (by rintro ⟨h, _⟩; exact hx0 h)]
      exact IH best bsz hsort' h1' h2
        (fun b hb => fun y hy => hbelow b hb y (List.mem_cons_of_mem _ hy))

theorem mrv_go_first_small (g : Grid) (d : Domains) :
    ∀ (L : List Variable) (best : Option Variable) (bsz : Nat),
      2 ≤ bsz →
      (∃ x ∈ L, gridGet g x.1 x.2 = 0 ∧ (d x).length ≤ 1) →
      mrv_go g d L best bsz =
        L.find? fun x => (gridGet g x.1 x.2 == 0) && decide ((d x).length ≤ 1) := by
  intro L
  induction L with
  | nil =>
    intro best bsz _ hex
    simp at hex
  | cons x L IH =>
    intro best bsz h2 hex
    by_cases hx0 : gridGet g x.1 x.2 = 0
    · by_cases hxs : (d x).length ≤ 1
      · rw [mrv_go, if_pos hx0]
        dsimp only
        have hfind : (x :: L).find?
            (fun y => (gridGet g y.1 y.2 == 0) && decide ((d y).length ≤ 1)) =
            some x := by
          rw [List.find?_cons]
          simp [hx0, hxs]
        rw [hfind]
        by_cases hz : (d x).length = 0
        · rw [if_pos hz]
        · rw [if_neg hz, if_pos (by omega : (d x).length < bsz),
            if_pos (by omega : (d x).length = 1)]
      · have hex' : ∃ y ∈ L, gridGet g y.1 y.2 = 0 ∧ (d y).length ≤ 1 := by
          rcases hex with ⟨y, hy, hy0, hys⟩
          rcases List.mem_cons.1 hy with rfl | hy'
          · exact absurd hys hxs
          · exact ⟨y, hy', hy0, hys⟩
        have hfind : (x :: L).find?
            (fun y => (gridGet g y.1 y.2 == 0) && decide ((d y).length ≤ 1)) =
            L.find? fun y => (gridGet g y.1 y.2 == 0) && decide ((d y).length ≤ 1) := by
          rw [List.find?_cons]
          simp [hxs]
        rw [hfind, mrv_go, if_pos hx0]
        dsimp only
        rw [if_neg (by omega : ¬ (d x).length = 0)]
        by_cases hlt : (d x).length < bsz
        · rw [if_pos hlt, if_neg (by omega : ¬ (d x).length = 1)]
          exact IH (some x) (d x).length (by omega) hex'
        · rw [if_neg hlt]
          rcases best with _ | b
          · dsimp only
            exact IH none bsz h2 hex'
          · dsimp only
            split
            · exact IH (some x) bsz h2 hex'
            · exact IH (some b) bsz h2 hex'
    · have hex' : ∃ y ∈ L, gridGet g y.1 y.2 = 0 ∧ (d y).length ≤ 1 := by
        rcases hex with ⟨y, hy, hy0, hys⟩
        rcases List.mem_cons.1 hy with rfl | hy'
        · exact absurd hy0 hx0
        · exact ⟨y, hy', hy0, hys⟩
      rw [mrv_go, if_neg hx0, List.find?_cons]
      have : ((gridGet g x.1 x.2 == 0) && decide ((d x).length ≤ 1)) = false := by
        simp [hx0]
      rw [this]
      exact IH best bsz h2 hex'

theorem specMin_spec (g : Grid) (d : Domains) :
    ∀ (L : List Variable) (best : Option Variable) (bsz : Nat),
      L.Pairwise varLt →
      (∀ b, best = some b → gridGet g b.1 b.2 = 0 ∧ (d b).length = bsz ∧
        ∀ x ∈ L, varLt b x) →
      (∀ x ∈ L, gridGet g x.1 x.2 = 0 → (d x).length ≤ 9) →
      (best = none → bsz = 10) →
      (specMin g d L best bsz = none →
        (∀ x ∈ L, gridGet g x.1 x.2 ≠ 0) ∧ best = none) ∧
      (∀ m, specMin g d L best bsz = some m →
        gridGet g m.1 m.2 = 0 ∧
        ((m ∈ L ∧ (d m).length < bsz) ∨ best = some m) ∧
        (d m).length ≤ bsz ∧
        (∀ x ∈ L, gridGet g x.1 x.2 = 0 →
          (d m).length ≤ (d x).length ∧
          ((d x).length = (d m).length → m = x ∨ varLt m x))) := by
  intro L
  induction L with
  | nil =>
    intro best bsz _ hbest _ _
    constructor
    · intro h
      exact ⟨by simp, by rw [specMin] at h; exact h⟩
    · intro m hm
      rw [specMin] at hm
      obtain ⟨hb0, hbsz, _⟩ := hbest m hm
      exact ⟨hb0, Or.inr hm, by omega, by simp⟩
  | cons x L IH =>
    intro best bsz hsort hbest hsz9 hnone10
    obtain ⟨hx_lt, hsort'⟩ := List.pairwise_cons.1 hsort
    have hsz9' : ∀ y ∈ L, gridGet g y.1 y.2 = 0 → (d y).length ≤ 9 :=
      fun y hy => hsz9 y (List.mem_cons_of_mem _ hy)
    by_cases hcond : gridGet g x.1 x.2 = 0 ∧ (d x).length < bsz
    · have heq : specMin g d (x :: L) best bsz =
          specMin g d L (some x) (d x).length := by
        rw [specMin, if_pos hcond]
      have IH' := IH (some x) (d x).length hsort'
        (by
          intro b hb
          have hb2 : b = x := by injection hb with h; exact h.symm
          subst hb2
          exact ⟨hcond.1, rfl, hx_lt⟩)
        hsz9' (by intro h; cases h)
      rw [heq]
      constructor
      · intro h
        exact absurd (IH'.1 h).2 (by simp)
      · intro m hm
        obtain ⟨hm0, hmsrc, hmle, hmall⟩ := IH'.2 m hm
        have hm_in : m ∈ x :: L ∧ (d m).length < bsz := by
          rcases hmsrc with ⟨hmL, hmlt⟩ | hmx
          · exact ⟨List.mem_cons_of_mem _ hmL, by omega⟩
          · have : m = x := by injection hmx with h; exact h.symm
            subst this
            exact ⟨List.mem_cons_self .., hcond.2⟩
        refine ⟨hm0, Or.inl hm_in, by omega, ?_⟩
        intro y hy hy0
        rcases List.mem_cons.1 hy with rfl | hyL
        · refine ⟨hmle, ?_⟩
          intro hye
          rcases hmsrc with ⟨hmL, hmlt⟩ | hmx
          · exact absurd hye (by omega)
          · have : m = y := by injection hmx with h; exact h.symm
            exact Or.inl this
        · exact hmall y hyL hy0
    · have heq : specMin g d (x :: L) best bsz = specMin g d L best bsz := by
        rw [specMin, if_neg hcond]
      have IH' := IH best bsz hsort'
        (by
          intro b hb
          obtain ⟨h1, h2, h3⟩ := hbest b hb
          exact ⟨h1, h2, fun y hy => h3 y (List.mem_cons_of_mem _ hy)⟩)
        hsz9' hnone10
      rw [heq]
      constructor
      · intro h
        obtain ⟨hall, hbn⟩ := IH'.1 h
        refine ⟨?_, hbn⟩
        intro y hy
        rcases List.mem_cons.1 hy with rfl | hyL
        · intro hy0
          have h10 := hnone10 hbn
          have h9 := hsz9 y (List.mem_cons_self ..) hy0
          exact hcond ⟨hy0, by omega⟩
        · exact hall y hyL
      · intro m hm
        obtain ⟨hm0, hmsrc, hmle, hmall⟩ := IH'.2 m hm
        refine ⟨hm0, ?_, hmle, ?_⟩
        · rcases hmsrc with ⟨hmL, hmlt⟩ | hmx
          · exact Or.inl ⟨List.mem_cons_of_mem _ hmL, hmlt⟩
          · exact Or.inr hmx
        · intro y hy hy0
          rcases List.mem_cons.1 hy with rfl | hyL
          · have hyge : ¬ (d y).length < bsz := fun hlt => hcond ⟨hy0, hlt⟩
            refine ⟨by omega, ?_⟩
            intro hye
            have hmb : bsz = (d m).length := by omega
            rcases hmsrc with ⟨hmL, hmlt⟩ | hmx
            · exact absurd hmb (by omega)
            · obtain ⟨_, _, h3⟩ := hbest m hmx
              exact Or.inr (h3 y (List.mem_cons_self ..))
          · exact hmall y hyL hy0

theorem get_variables_sorted : get_variables.Pairwise varLt := by decide

/-- Grid with exactly the cells (0,0) and (0,1) empty. -/
def mrvGrid : Grid := gridSet (gridSet solvedGrid 0 0 0) 0 1 0

/-- Domain store giving (0,0) one candidate and (0,1) none. -/
def mrvDomains : Domains :=
  fun v => if v = (0, 0) then [7] else if v = (0, 1) then [] else [1]

/-- C6 (counterexample): cell (0,1) is unassigned with a domain of size 0,
yet the MRV selector returns cell (0,0), whose domain has size 1: the
size-1 short-circuit fires before the size-0 cell is ever scanned, so the
wiped-out variable is not "detected and returned immediately". -/
theorem C6_size_zero_not_returned :
    gridGet mrvGrid 0 1 = 0 ∧ mrvDomains (0, 1) = [] ∧
    select_unassigned_variable_mrv mrvGrid mrvDomains = some (0, 0) ∧
    mrvDomains (0, 0) = [7] := by
  refine ⟨by decide, by decide, by decide, by decide⟩

/-- C6 (amended): the MRV selector returns the no-variable sentinel on a
full grid; when some unassigned variable has an *empty* domain it returns
the first (row-major) unassigned variable whose domain has size at most 1 —
which is the size-0 variable itself only if no size-≤1 variable precedes
it; and when every unassigned variable has a domain of size 1–9 it returns
an unassigned variable of minimal domain size, the smallest one in
(row, column) order among those of minimal size. -/
theorem C6_mrv_selector (g : Grid) (d : Domains) :
    ((∀ r < 9, ∀ c < 9, gridGet g r c ≠ 0) →
      select_unassigned_variable_mrv g d = none) ∧
    ((∃ x ∈ get_variables, gridGet g x.1 x.2 = 0 ∧ (d x).length = 0) →
      select_unassigned_variable_mrv g d =
        get_variables.find? fun x =>
          (gridGet g x.1 x.2 == 0) && decide ((d x).length ≤ 1)) ∧
    ((∃ x ∈ get_variables, gridGet g x.1 x.2 = 0) →
      (∀ x ∈ get_variables, gridGet g x.1 x.2 = 0 →
        1 ≤ (d x).length ∧ (d x).length ≤ 9) →
      ∃ m, select_unassigned_variable_mrv g d = some m ∧
        m ∈ get_variables ∧ gridGet g m.1 m.2 = 0 ∧
        (∀ x ∈ get_variables, gridGet g x.1 x.2 = 0 →
          (d m).length ≤ (d x).length ∧
          ((d x).length = (d m).length → m = x ∨ varLt m x))) := by
  refine ⟨?_, ?_, ?_⟩
  · intro hfull
    unfold select_unassigned_variable_mrv
    exact mrv_go_no_empty g d get_variables none 10 fun x hx =>
      hfull x.1 (get_variables_bounds x hx).1 x.2 (get_variables_bounds x hx).2
  · intro hex
    unfold select_unassigned_variable_mrv
    exact mrv_go_first_small g d get_variables none 10 (by omega)
      (by rcases hex with ⟨x, hx, hx0, hxs⟩; exact ⟨x, hx, hx0, by omega⟩)
  · intro hex hsz
    unfold select_unassigned_variable_mrv
    rw [mrv_go_eq_specMin g d get_variables none 10 get_variables_sorted
      (fun x hx hx0 => (hsz x hx hx0).1) (by omega) (by intro b hb; cases hb)]
    have hspec := specMin_spec g d get_variables none 10 get_variables_sorted
      (by intro b hb; cases hb) (fun x hx hx0 => (hsz x hx hx0).2)
      (fun _ => rfl)
    rcases hres : specMin g d get_variables none 10 with _ | m
    · obtain ⟨hall, _⟩ := hspec.1 hres
      rcases hex with ⟨x, hx, hx0⟩
      exact absurd hx0 (hall x hx)
    · obtain ⟨hm0, hmsrc, _, hmall⟩ := hspec.2 m hres
      refine ⟨m, rfl, ?_, hm0, hmall⟩
      rcases hmsrc with ⟨hmL, _⟩ | hmx
      · exact hmL
      · cases hmx

theorem C6_mrv_selector_witness :
    (∀ r < 9, ∀ c < 9, gridGet solvedGrid r c ≠ 0) ∧
    select_unassigned_variable_mrv solvedGrid mrvDomains = none ∧
    (∃ x ∈ get_variables,
      gridGet mrvGrid x.1 x.2 = 0 ∧ (mrvDomains x).length = 0) ∧
    select_unassigned_variable_mrv mrvGrid mrvDomains =
      get_variables.find? fun x =>
        (gridGet mrvGrid x.1 x.2 == 0) && decide ((mrvDomains x).length ≤ 1) :=
  ⟨by decide, (C6_mrv_selector solvedGrid mrvDomains).1 (by decide),
   by decide, (C6_mrv_selector mrvGrid mrvDomains).2.1 (by decide)⟩

/-! ## Claim C5: soundness of the map-coloring solver -/

namespace MapColoring

/-- The keys of the assignment dictionary, in insertion order. -/
def keys (asg : Assignments) : List Region := asg.map fun p => p.1

theorem dictGet_none_iff {asg : Assignments} {k : Region} :
    dictGet asg k = none ↔ k ∉ keys asg := by
  induction asg with
  | nil => simp [dictGet, keys]
  | cons p rest IH =>
    unfold dictGet at *
    rw [List.find?_cons]
    by_cases hk : p.1 = k
    · simp [hk, keys]
    · have : (p.1 == k) = false := by simp [hk]
      rw [this]
      simp only [keys, List.map_cons, List.mem_cons]
      rw [IH]
      constructor
      · intro h hmem
        rcases hmem with h' | h'
        · exact hk h'.symm
        · exact h h'
      · intro h hmem
        exact h (Or.inr hmem)

theorem dictGet_append_fresh {asg : Assignments} {k : Region} {v : Color}
    (hk : dictGet asg k = none) :
    ∀ y, dictGet (asg ++ [(k, v)]) y =
      if y = k then some v else dictGet asg y := by
  intro y
  induction asg with
  | nil =>
    unfold dictGet
    rw [List.nil_append, List.find?_cons]
    by_cases hy : y = k
    · simp [hy]
    · have : ((k, v).1 == y) = false := by
        simp only [beq_eq_false_iff_ne, ne_eq]
        exact fun h => hy h.symm
      rw [this, if_neg hy]
  | cons p rest IH =>
    have hk' : dictGet rest k = none := by
      unfold dictGet at hk ⊢
      rw [List.find?_cons] at hk
      rcases h : (p.1 == k) with _ | _
      · rw [h] at hk
        exact hk
      · rw [h] at hk
        simp at hk
    unfold dictGet at *
    rw [List.cons_append, List.find?_cons, List.find?_cons]
    rcases h : (p.1 == y) with _ | _
    · exact IH hk'
    · by_cases hy : y = k
      · subst hy
        rw [List.find?_cons] at hk
        rw [h] at hk
        simp at hk
      · rw [if_neg hy]

theorem dictSet_fresh {asg : Assignments} {k : Region} {v : Color}
    (hk : dictGet asg k = none) :
    dictSet asg k v = asg ++ [(k, v)] := by
  unfold dictSet
  rw [if_neg]
  unfold dictGet at hk
  intro hsome
  rcases h : asg.find? fun p => p.1 == k with _ | p
  · rw [h] at hsome
    simp at hsome
  · rw [h] at hk
    simp at hk

theorem dictDel_append_fresh {asg : Assignments} {k : Region} {v : Color}
    (hk : dictGet asg k = none) :
    dictDel (asg ++ [(k, v)]) k = asg := by
  induction asg with
  | nil =>
    unfold dictDel
    simp [List.eraseP_cons]
  | cons p rest IH =>
    have hk' : dictGet rest k = none := by
      unfold dictGet at hk ⊢
      rw [List.find?_cons] at hk
      rcases h : (p.1 == k) with _ | _
      · rw [h] at hk
        exact hk
      · rw [h] at hk
        simp at hk
    have hp : (p.1 == k) = false := by
      unfold dictGet at hk
      rw [List.find?_cons] at hk
      rcases h : (p.1 == k) with _ | _
      · rfl
      · rw [h] at hk
        simp at hk
    unfold dictDel at *
    rw [List.cons_append, List.eraseP_cons, hp]
    simp only [cond_false]
    rw [IH hk']

theorem keys_append (asg : Assignments) (k : Region) (v : Color) :
    keys (asg ++ [(k, v)]) = keys asg ++ [k] := by
  unfold keys
  rw [List.map_append]
  rfl

theorem dictGet_mem_palette {asg : Assignments} {k : Region} {c : Color}
    (hall : ∀ p ∈ asg, p.2 ∈ COLOR_PALETTE)
    (h : dictGet asg k = some c) : c ∈ COLOR_PALETTE := by
  unfold dictGet at h
  rw [Option.map_eq_some'] at h
  obtain ⟨p, hfind, hpc⟩ := h
  rw [← hpc]
  exact hall p (List.mem_of_find?_eq_some hfind)

theorem check_constraint_iff_mc {asg : Assignments} {adj : Adjacency}
    {xvar : Region} {color : Color} :
    check_constraint asg adj xvar color = true ↔
    ∀ n ∈ adj xvar, ∀ c, dictGet asg n = some c → c ≠ color := by
  unfold check_constraint
  rw [List.all_eq_true]
  constructor
  · intro H n hn c hc
    have := H n hn
    rw [hc] at this
    simpa using this
  · intro H n hn
    rcases hg : dictGet asg n with _ | c
    · rfl
    · simpa using H n hn c hg

theorem select_some_mc {vars : List Region} {asg : Assignments} {x : Region}
    (h : select_unassigned_variable vars asg = some x) :
    x ∈ vars ∧ dictGet asg x = none := by
  refine ⟨List.mem_of_find?_eq_some h, ?_⟩
  have := List.find?_some h
  simpa using this

/-- The solver's running invariant on the assignment dictionary. -/
def Good (vars : List Region) (adj : Adjacency) (asg : Assignments) : Prop :=
  (keys asg).Nodup ∧ (∀ k ∈ keys asg, k ∈ vars) ∧
  (∀ p ∈ asg, p.2 ∈ COLOR_PALETTE) ∧
  (∀ a b ca cb, dictGet asg a = some ca → dictGet asg b = some cb →
    b ∈ adj a → ca ≠ cb)

theorem Good_insert {vars : List Region} {adj : Adjacency} {asg : Assignments}
    {xvar : Region} {color : Color}
    (hsym : ∀ a b, b ∈ adj a → a ∈ adj b)
    (hloop : ∀ a, a ∉ adj a)
    (hgood : Good vars adj asg) (hx : xvar ∈ vars)
    (hfresh : dictGet asg xvar = none)
    (hcolor : color ∈ COLOR_PALETTE)
    (hcheck : check_constraint asg adj xvar color = true) :
    Good vars adj (asg ++ [(xvar, color)]) := by
  obtain ⟨hnd, hsub, hpal, hcons⟩ := hgood
  have hget := dictGet_append_fresh (v := color) hfresh
  have hchk := check_constraint_iff_mc.1 hcheck
  refine ⟨?_, ?_, ?_, ?_⟩
  · rw [keys_append]
    exact nodup_concat (dictGet_none_iff.1 hfresh) hnd
  · intro k hk
    rw [keys_append] at hk
    rcases List.mem_append.1 hk with hk' | hk'
    · exact hsub k hk'
    · rw [List.mem_singleton] at hk'
      exact hk' ▸ hx
  · intro p hp
    rcases List.mem_append.1 hp with hp' | hp'
    · exact hpal p hp'
    · rw [List.mem_singleton] at hp'
      rw [hp']
      exact hcolor
  · intro a b ca cb hca hcb hadj
    rw [hget a] at hca
    rw [hget b] at hcb
    by_cases ha : a = xvar
    · rw [if_pos ha] at hca
      by_cases hb : b = xvar
      · exfalso
        apply hloop xvar
        rw [ha, hb] at hadj
        exact hadj
      · rw [if_neg hb] at hcb
        have : cb ≠ color := hchk b (ha ▸ hadj) cb hcb
        rw [(by injection hca : color = ca)] at this
        exact fun he => this he.symm
    · rw [if_neg ha] at hca
      by_cases hb : b = xvar
      · rw [if_pos hb] at hcb
        have hadjx : a ∈ adj xvar := hsym a xvar (hb ▸ hadj)
        have hne : ca ≠ color := hchk a hadjx ca hca
        rw [← (by injection hcb : color = cb)]
        exact hne
      · rw [if_neg hb] at hcb
        exact hcons a b ca cb hca hcb hadj

theorem mc_try_spec (vars : List Region) (adj : Adjacency)
    (hsym : ∀ a b, b ∈ adj a → a ∈ adj b) (hloop : ∀ a, a ∉ adj a)
    (recur : MCState → Option Assignments × MCState)
    (Hnone : ∀ s s', Good vars adj s.assignments → recur s = (none, s') →
      s'.assignments = s.assignments)
    (Hsome : ∀ s res s', Good vars adj s.assignments →
      recur s = (some res, s') →
      Good vars adj res ∧ res.length = vars.length)
    (xvar : Region) (hx : xvar ∈ vars) :
    ∀ cs s, Good vars adj s.assignments →
      dictGet s.assignments xvar = none →
      (∀ c ∈ cs, c ∈ COLOR_PALETTE) →
      (∀ s', mc_try recur adj xvar cs s = (none, s') →
        s'.assignments = s.assignments) ∧
      (∀ res s', mc_try recur adj xvar cs s = (some res, s') →
        Good vars adj res ∧ res.length = vars.length) := by
  intro cs
  induction cs with
  | nil =>
    intro s hgood hfresh hcs
    constructor
    · intro s' h
      rw [mc_try] at h
      cases h; rfl
    · intro res s' h
      rw [mc_try] at h
      cases h
  | cons color rest IH =>
    intro s hgood hfresh hcs
    have hc := hcs color (List.mem_cons_self ..)
    have hcs' : ∀ c ∈ rest, c ∈ COLOR_PALETTE :=
      fun c hc' => hcs c (List.mem_cons_of_mem _ hc')
    by_cases hcheck : check_constraint s.assignments adj xvar color = true
    · have hset : dictSet s.assignments xvar color =
          s.assignments ++ [(xvar, color)] := dictSet_fresh hfresh
      have hgood1 : Good vars adj (s.assignments ++ [(xvar, color)]) :=
        Good_insert hsym hloop hgood hx hfresh hc hcheck
      rcases hrec : recur ⟨dictSet s.assignments xvar color,
          s.assignments_count + 1, s.backtracks_count⟩ with ⟨r1, s2⟩
      rcases r1 with _ | res
      · have hs2 : s2.assignments = s.assignments ++ [(xvar, color)] := by
          have := Hnone _ _ (by rw [hset]; exact hgood1) hrec
          rw [this]
          exact hset
        have hdel : dictDel s2.assignments xvar = s.assignments := by
          rw [hs2]
          exact dictDel_append_fresh hfresh
        have heq : mc_try recur adj xvar (color :: rest) s =
            mc_try recur adj xvar rest
              ⟨dictDel s2.assignments xvar,
               s2.assignments_count, s2.backtracks_count + 1⟩ := by
          rw [mc_try, if_pos hcheck, hrec]
        have IH' := IH ⟨dictDel s2.assignments xvar,
            s2.assignments_count, s2.backtracks_count + 1⟩
          (by simpa [hdel] using hgood) (by simpa [hdel] using hfresh) hcs'
        rw [heq]
        constructor
        · intro s' h
          have := IH'.1 s' h
          simpa [hdel] using this
        · exact IH'.2
      · have heq : mc_try recur adj xvar (color :: rest) s = (some res, s2) := by
          rw [mc_try, if_pos hcheck, hrec]
        constructor
        · intro s' h
          rw [heq] at h
          cases h
        · intro res' s' h
          rw [heq] at h
          injection h with h1 h2
          injection h1 with h1
          subst h1
          exact Hsome _ res s2 (by rw [hset]; exact hgood1) hrec
    · have heq : mc_try recur adj xvar (color :: rest) s =
          mc_try recur adj xvar rest s := by
        rw [mc_try, if_neg hcheck]
      rw [heq]
      exact IH s hgood hfresh hcs'

theorem mc_solve_fuel_spec (vars : List Region) (adj : Adjacency)
    (hsym : ∀ a b, b ∈ adj a → a ∈ adj b) (hloop : ∀ a, a ∉ adj a) :
    ∀ fuel s, Good vars adj s.assignments →
      (∀ s', mc_solve_fuel vars adj fuel s = (none, s') →
        s'.assignments = s.assignments) ∧
      (∀ res s', mc_solve_fuel vars adj fuel s = (some res, s') →
        Good vars adj res ∧ res.length = vars.length) := by
  intro fuel
  induction fuel with
  | zero =>
    intro s hgood
    constructor
    · intro s' h
      rw [mc_solve_fuel] at h
      cases h; rfl
    · intro res s' h
      rw [mc_solve_fuel] at h
      cases h
  | succ fuel IH =>
    intro s hgood
    by_cases hlen : s.assignments.length = vars.length
    · have heq : mc_solve_fuel vars adj (fuel + 1) s =
          (some s.assignments, s) := by
        rw [mc_solve_fuel, if_pos hlen]
      constructor
      · intro s' h
        rw [heq] at h
        cases h
      · intro res s' h
        rw [heq] at h
        injection h with h1 h2
        injection h1 with h1
        subst h1
        exact ⟨hgood, hlen⟩
    · rcases hsel : select_unassigned_variable vars s.assignments with _ | xvar
      · have heq : mc_solve_fuel vars adj (fuel + 1) s = (none, s) := by
          rw [mc_solve_fuel, if_neg hlen, hsel]
        constructor
        · intro s' h
          rw [heq] at h
          cases h; rfl
        · intro res s' h
          rw [heq] at h
          cases h
      · obtain ⟨hxv, hfresh⟩ := select_some_mc hsel
        have hcolors : ∀ c ∈ (get_domain xvar).insertionSort strLe,
            c ∈ COLOR_PALETTE := by
          intro c hc
          exact (List.perm_insertionSort strLe (get_domain xvar)).mem_iff.1 hc
        have Htry := mc_try_spec vars adj hsym hloop
          (mc_solve_fuel vars adj fuel)
          (fun t t' hg h => (IH t hg).1 t' h)
          (fun t res t' hg h => (IH t hg).2 res t' h)
          xvar hxv ((get_domain xvar).insertionSort strLe) s hgood hfresh hcolors
        have heq : mc_solve_fuel vars adj (fuel + 1) s =
            mc_try (mc_solve_fuel vars adj fuel) adj xvar
              ((get_domain xvar).insertionSort strLe) s := by
          rw [mc_solve_fuel, if_neg hlen, hsel]
        rw [heq]
        exact Htry

end MapColoring

/-- C5: for a symmetric, self-loop-free adjacency mapping with
duplicate-free variable list, if `backtrack_solve(variables, adjacency, {})`
returns a mapping, then every variable is assigned exactly one color (the
returned dictionary has duplicate-free keys covering exactly the
variables), every assigned color comes from `COLOR_PALETTE`, and adjacent
regions always receive different colors. -/
theorem C5_map_coloring_sound
    (vars : List MapColoring.Region) (adj : MapColoring.Adjacency)
    (hnd : vars.Nodup)
    (hsym : ∀ a b, b ∈ adj a → a ∈ adj b)
    (hloop : ∀ a, a ∉ adj a)
    (res : MapColoring.Assignments)
    (hres : MapColoring.backtrack_solve vars adj [] = some res) :
    (∀ v ∈ vars, ∃ c, MapColoring.dictGet res v = some c ∧
      c ∈ MapColoring.COLOR_PALETTE) ∧
    (MapColoring.keys res).Nodup ∧
    (∀ k ∈ MapColoring.keys res, k ∈ vars) ∧
    (∀ a b ca cb, b ∈ adj a → MapColoring.dictGet res a = some ca →
      MapColoring.dictGet res b = some cb → ca ≠ cb) := by
  have hrun : ∃ s', MapColoring.mc_solve_fuel vars adj (vars.length + 1)
      ⟨[], 0, 0⟩ = (some res, s') := by
    unfold MapColoring.backtrack_solve at hres
    rcases h : MapColoring.mc_solve_fuel vars adj (vars.length + 1)
        ⟨[], 0, 0⟩ with ⟨r, s'⟩
    rw [h] at hres
    simp only at hres
    exact ⟨s', by rw [hres]⟩
  obtain ⟨s', hrun⟩ := hrun
  have hgood0 : MapColoring.Good vars adj ([] : MapColoring.Assignments) := by
    refine ⟨by simp [MapColoring.keys], by simp [MapColoring.keys], by simp, ?_⟩
    intro a b ca cb hca
    simp [MapColoring.dictGet] at hca
  obtain ⟨⟨hknd, hksub, hpal, hcons⟩, hlen⟩ :=
    (MapColoring.mc_solve_fuel_spec vars adj hsym hloop (vars.length + 1)
      ⟨[], 0, 0⟩ hgood0).2 res s' hrun
  have hklen : (MapColoring.keys res).length = vars.length := by
    unfold MapColoring.keys
    rw [List.length_map]
    exact hlen
  have hcover : ∀ v ∈ vars, v ∈ MapColoring.keys res := by
    have hsubF : (MapColoring.keys res).toFinset ⊆ vars.toFinset := by
      intro v hv
      rw [List.mem_toFinset] at hv ⊢
      exact hksub v hv
    have hcard : vars.toFinset.card ≤ (MapColoring.keys res).toFinset.card := by
      rw [List.toFinset_card_of_nodup hknd, List.toFinset_card_of_nodup hnd,
        hklen]
    have := Finset.eq_of_subset_of_card_le hsubF hcard
    intro v hv
    rw [← List.mem_toFinset, ← this, List.mem_toFinset] at hv
    exact hv
  refine ⟨?_, hknd, hksub, ?_⟩
  · intro v hv
    rcases hget : MapColoring.dictGet res v with _ | c
    · exact absurd (MapColoring.dictGet_none_iff.1 hget) (by
        intro h
        exact h (hcover v hv))
    · exact ⟨c, rfl, MapColoring.dictGet_mem_palette hpal hget⟩
  · intro a b ca cb hadj hca hcb
    exact hcons a b ca cb hca hcb hadj

/-- Ring adjacency on four regions A-B-C-D-A, used as a witness input. -/
def ringAdjacency : MapColoring.Adjacency := fun r =>
  if r = "A" then ["B", "D"]
  else if r = "B" then ["A", "C"]
  else if r = "C" then ["B", "D"]
  else if r = "D" then ["A", "C"]
  else []

theorem ringAdjacency_symm : ∀ a b, b ∈ ringAdjacency a → a ∈ ringAdjacency b := by
  intro a b hb
  unfold ringAdjacency at hb
  split_ifs at hb with h1 h2 h3 h4 <;>
    simp only [List.mem_cons, List.mem_singleton, List.not_mem_nil, or_false] at hb
  · rcases hb with rfl | rfl <;> (subst h1; decide)
  · rcases hb with rfl | rfl <;> (subst h2; decide)
  · rcases hb with rfl | rfl <;> (subst h3; decide)
  · rcases hb with rfl | rfl <;> (subst h4; decide)

theorem ringAdjacency_no_loop : ∀ a, a ∉ ringAdjacency a := by
  intro a ha
  unfold ringAdjacency at ha
  split_ifs at ha with h1 h2 h3 h4 <;>
    simp only [List.mem_cons, List.mem_singleton, List.not_mem_nil, or_false] at ha
  · rcases ha with rfl | rfl <;> simp at h1
  · rcases ha with rfl | rfl <;> simp at h2
  · rcases ha with rfl | rfl <;> simp at h3
  · rcases ha with rfl | rfl <;> simp at h4

theorem C5_map_coloring_sound_witness :
    (["A", "B", "C", "D"] : List MapColoring.Region).Nodup ∧
    (MapColoring.backtrack_solve ["A", "B", "C", "D"] ringAdjacency []).isSome ∧
    (∀ res, MapColoring.backtrack_solve ["A", "B", "C", "D"] ringAdjacency [] =
        some res →
      (∀ v ∈ (["A", "B", "C", "D"] : List MapColoring.Region),
        ∃ c, MapColoring.dictGet res v = some c ∧
          c ∈ MapColoring.COLOR_PALETTE)) :=
  ⟨by decide, by decide,
   fun res hres =>
     (C5_map_coloring_sound ["A", "B", "C", "D"] ringAdjacency (by decide)
       ringAdjacency_symm ringAdjacency_no_loop res hres).1⟩

/-! ## Claim C10: characterisation of `initial_domains` -/


/-! ## Claim C10: characterisation of `initial_domains` -/

theorem initial_domains_mem {g : Grid} {r c : Nat}
    (hr : r < 9) (hc : c < 9) (h0 : gridGet g r c = 0) (v : Nat) :
    v ∈ initial_domains g (r, c) ↔
    1 ≤ v ∧ v ≤ 9 ∧
    ∀ p : Variable, inR p → sameUnit (r, c) p → gridGet g p.1 p.2 ≠ 0 →
      gridGet g p.1 p.2 ≠ v := by
  unfold initial_domains
  rw [if_neg (by simpa using h0)]
  rw [List.mem_filter]
  simp only [List.mem_range', Bool.not_eq_eq_eq_not, Bool.not_true,
    Bool.or_eq_false_iff, List.any_eq_false, List.any_eq_true,
    Bool.and_eq_true, bne_iff_ne, beq_iff_eq, not_exists, not_and,
    List.mem_range, ne_eq]
  constructor
  · rintro ⟨⟨i, hi, rfl⟩, ⟨hrow, hcol⟩, hbox⟩
    refine ⟨by omega, by omega, ?_⟩
    rintro ⟨pr, pc⟩ ⟨hpr, hpc⟩ hunit hne0
    rcases hunit with h1 | h2 | ⟨h3, h4⟩
    · subst h1
      exact hrow pc hpc hne0
    · subst h2
      exact hcol pr hpr hne0
    · exact hbox pr ⟨pr - r / 3 * 3, by omega, by omega⟩
        pc ⟨pc - c / 3 * 3, by omega, by omega⟩ hne0
  · rintro ⟨hv1, hv9, H⟩
    refine ⟨⟨v - 1, by omega, by omega⟩, ⟨?_, ?_⟩, ?_⟩
    · intro pc hpc hne0
      exact H (r, pc) ⟨hr, hpc⟩ (Or.inl rfl) hne0
    · intro pr hpr hne0
      exact H (pr, c) ⟨hpr, hc⟩ (Or.inr (Or.inl rfl)) hne0
    · rintro x ⟨i, hi, rfl⟩ y ⟨j, hj, rfl⟩ hne0
      exact H (r / 3 * 3 + 1 * i, c / 3 * 3 + 1 * j) ⟨by omega, by omega⟩
        (Or.inr (Or.inr ⟨by omega, by omega⟩)) hne0

/-- C10: `initial_domains` maps a filled cell to its singleton value; it
maps an empty cell to exactly the values 1–9 that occur in no nonzero cell
of the cell's row, column, or 3×3 box (so the initial peer-based pruning
happens before search, although the spec describes an empty cell's domain
as the full 1–9); the `sudoku.py` variant has the same members and is
additionally sorted ascending. -/
theorem C10_initial_domains (g : Grid) (r c : Nat) (hr : r < 9) (hc : c < 9) :
    (gridGet g r c ≠ 0 →
      initial_domains g (r, c) = [gridGet g r c] ∧
      initial_domains_mrv g (r, c) = [gridGet g r c]) ∧
    (gridGet g r c = 0 →
      ∀ v, (v ∈ initial_domains g (r, c) ↔
        1 ≤ v ∧ v ≤ 9 ∧
        ∀ p : Variable, inR p → sameUnit (r, c) p → gridGet g p.1 p.2 ≠ 0 →
          gridGet g p.1 p.2 ≠ v) ∧
      (v ∈ initial_domains_mrv g (r, c) ↔ v ∈ initial_domains g (r, c))) ∧
    List.Sorted (· ≤ ·) (initial_domains_mrv g (r, c)) := by
  refine ⟨?_, ?_, ?_⟩
  · intro hne
    constructor
    · unfold initial_domains
      rw [if_pos (by simpa using hne)]
    · unfold initial_domains_mrv
      rw [if_pos (by simpa using hne)]
  · intro h0 v
    refine ⟨initial_domains_mem hr hc h0 v, ?_⟩
    unfold initial_domains initial_domains_mrv
    rw [if_neg (by simpa using h0), if_neg (by simpa using h0)]
    exact (List.perm_insertionSort _ _).mem_iff
  · unfold initial_domains_mrv
    split
    · exact List.sorted_singleton _
    · exact List.sorted_insertionSort _ _

theorem C10_initial_domains_witness :
    (0 : Nat) < 9 ∧ (2 : Nat) < 9 ∧ gridGet puzzleThree 0 2 ≠ 0 ∧
    initial_domains puzzleThree (0, 2) = [gridGet puzzleThree 0 2] ∧
    gridGet puzzleThree 0 0 = 0 ∧
    (1 ∈ initial_domains puzzleThree (0, 0) ↔
      1 ≤ 1 ∧ 1 ≤ 9 ∧
      ∀ p : Variable, inR p → sameUnit (0, 0) p →
        gridGet puzzleThree p.1 p.2 ≠ 0 → gridGet puzzleThree p.1 p.2 ≠ 1) :=
  ⟨by decide, by decide, by decide,
   ((C10_initial_domains puzzleThree 0 2 (by decide) (by decide)).1
     (by decide)).1,
   by decide,
   ((C10_initial_domains puzzleThree 0 0 (by decide) (by decide)).2.1
     (by decide) 1).1⟩
